import Mathlib

/-!
Verification of the pybudget changeset engine (`src/pybudget/apply.py`),
stable id generator (`src/pybudget/util.py`), indexed CSV store
(`src/pybudget/csv_tools.py`) and atomic file update transaction
(`src/pybudget/utils.py`), as a shallow embedding in Lean 4.

Python dict rows are modelled as insertion-ordered association lists
(`Row`), Python `float` values as exact rationals, `sys.exit`/uncaught
exceptions as `Except` errors, and `eprint` warnings as an explicit log.
-/

set_option maxRecDepth 1000000

namespace PyBudget

/-- A Python dict with string keys, modelled as an insertion-ordered
association list with unique keys (uniqueness holds for every dict the
code builds; operations below mirror CPython dict semantics). -/
abbrev Dict (α : Type) := List (String × α)

/-- A CSV row: a dict from column name to string value. -/
abbrev Row := Dict String

/-- `d.get(k)`: first binding of `k`, if any. -/
def dlookup (d : Dict α) (k : String) : Option α :=
  match d with
  | [] => none
  | (k', v) :: rest => if k' = k then some v else dlookup rest k

/-- `d.get(k, dflt)`. -/
def dgetD (d : Dict α) (k : String) (dflt : α) : α :=
  (dlookup d k).getD dflt

/-- `d[k] = v`: replace the value in place if `k` is present (keeping its
position, as CPython does), otherwise append the new binding at the end. -/
def dset (d : Dict α) (k : String) (v : α) : Dict α :=
  match d with
  | [] => [(k, v)]
  | (k', v') :: rest => if k' = k then (k', v) :: rest else (k', v') :: dset rest k v

/-- `del d[k]`: remove the first binding of `k`. -/
def ddel (d : Dict α) (k : String) : Dict α :=
  match d with
  | [] => []
  | (k', v') :: rest => if k' = k then rest else (k', v') :: ddel rest k

/-- `d.update(u)`: fold the bindings of `u` into `d` in order. -/
def dupdate (d u : Dict α) : Dict α :=
  u.foldl (fun acc kv => dset acc kv.1 kv.2) d

/-- The keys of a dict, in order. -/
def dkeys (d : Dict α) : List String := d.map Prod.fst

/-- Decidable equality for `Except`, so concrete engine runs can be
checked by `decide`. -/
instance [DecidableEq ε] [DecidableEq α] : DecidableEq (Except ε α) := fun x y =>
  match x, y with
  | .error a, .error b =>
    if h : a = b then .isTrue (congrArg Except.error h)
    else .isFalse (fun hh => h (Except.error.inj hh))
  | .ok a, .ok b =>
    if h : a = b then .isTrue (congrArg Except.ok h)
    else .isFalse (fun hh => h (Except.ok.inj hh))
  | .error _, .ok _ => .isFalse (fun hh => Except.noConfusion hh)
  | .ok _, .error _ => .isFalse (fun hh => Except.noConfusion hh)

/-- Whitespace characters stripped by Python `str.strip()` (ASCII subset;
the exotic Unicode spaces never occur in this data model). -/
def isPySpace (c : Char) : Bool :=
  c = ' ' || c = '\t' || c = '\n' || c = '\x0d' || c = '\x0b' || c = '\x0c'

/-- Python `str.strip()`. -/
def pyStrip (s : String) : String :=
  String.mk (((s.toList.dropWhile isPySpace).reverse.dropWhile isPySpace).reverse)

/-- Python `str.lower()` (ASCII; only used on the `type` tag). -/
def pyLower (s : String) : String :=
  String.mk (s.toList.map Char.toLower)

/-- Value of a list of decimal digit characters. -/
def digitsVal (cs : List Char) : Nat :=
  cs.foldl (fun a c => a * 10 + (c.toNat - 48)) 0

/-- An exact fraction: the embedding's idealisation of a Python float
(the `1e-6` split tolerance exists precisely to absorb the binary
rounding this ignores). The denominator is positive for every value the
code builds. Kept unnormalised so that every arithmetic operation is a
plain integer computation. -/
structure Q where
  num : Int
  den : Nat
deriving DecidableEq, Repr

def qzero : Q := ⟨0, 1⟩

def qadd (x y : Q) : Q := ⟨x.num * y.den + y.num * x.den, x.den * y.den⟩

def qneg (x : Q) : Q := ⟨-x.num, x.den⟩

def qsub (x y : Q) : Q := qadd x (qneg y)

def qabs (x : Q) : Q := ⟨(x.num.natAbs : Nat), x.den⟩

/-- `x < y` for fractions with positive denominators. -/
def qlt (x y : Q) : Bool := decide (x.num * (y.den : Int) < y.num * (x.den : Int))

/-- Value equality of fractions (cross-multiplication). -/
def qeqv (x y : Q) : Bool := decide (x.num * (y.den : Int) = y.num * (x.den : Int))

/-- The literal `1e-6` of apply.py line 93. -/
def qtol : Q := ⟨1, 1000000⟩

/-- Scale by `10^e` (`sign` true means a negative exponent). -/
def qscale (x : Q) (sign : Bool) (e : Nat) : Q :=
  if sign then ⟨x.num, x.den * 10 ^ e⟩ else ⟨x.num * ((10 ^ e : Nat) : Int), x.den⟩

/-- Exponent suffix of a float literal: digits after `e`/`E` and a sign. -/
def parseExpDigits (cs : List Char) (base : Q) : Option Q :=
  let (sign, cs) : Bool × List Char :=
    match cs with
    | '+' :: rest => (false, rest)
    | '-' :: rest => (true, rest)
    | _ => (false, cs)
  if cs ≠ [] ∧ cs.all Char.isDigit then some (qscale base sign (digitsVal cs))
  else none

/-- Tail of a float literal after the mantissa: empty or an exponent. -/
def parseExpOpt (cs : List Char) (base : Q) : Option Q :=
  match cs with
  | [] => some base
  | 'e' :: rest => parseExpDigits rest base
  | 'E' :: rest => parseExpDigits rest base
  | _ => none

/-- Unsigned part of a float literal: `digits [. digits] [exp]`. -/
def parseUnsigned (cs : List Char) : Option Q :=
  let intPart := cs.takeWhile Char.isDigit
  let rest := cs.dropWhile Char.isDigit
  match rest with
  | '.' :: rest2 =>
    let frac := rest2.takeWhile Char.isDigit
    let rest3 := rest2.dropWhile Char.isDigit
    if intPart = [] ∧ frac = [] then none
    else
      parseExpOpt rest3
        ⟨((digitsVal intPart * 10 ^ frac.length + digitsVal frac : Nat) : Int),
          10 ^ frac.length⟩
  | _ =>
    if intPart = [] then none
    else parseExpOpt rest ⟨((digitsVal intPart : Nat) : Int), 1⟩

/-- Python `float(s)` on decimal literals, read exactly as a fraction.
Returns `none` where `float()` raises `ValueError`. -/
def parseFloat (s : String) : Option Q :=
  let cs := (pyStrip s).toList
  match cs with
  | '+' :: rest => parseUnsigned rest
  | '-' :: rest => (parseUnsigned rest).map qneg
  | _ => parseUnsigned cs

/-- UTF-8 encoding of one scalar value. -/
def utf8Char (c : Char) : List Nat :=
  let n := c.toNat
  if n < 128 then [n]
  else if n < 2048 then
    [192 ||| (n >>> 6), 128 ||| (n &&& 63)]
  else if n < 65536 then
    [224 ||| (n >>> 12), 128 ||| ((n >>> 6) &&& 63), 128 ||| (n &&& 63)]
  else
    [240 ||| (n >>> 18), 128 ||| ((n >>> 12) &&& 63),
      128 ||| ((n >>> 6) &&& 63), 128 ||| (n &&& 63)]

/-- `s.encode('utf-8')` as a byte list. -/
def utf8Bytes (s : String) : List Nat :=
  s.toList.foldl (fun acc c => acc ++ utf8Char c) []

/-! ### SHA-1 (RFC 3174), over byte lists, word arithmetic in `Nat % 2^32` -/

def w32 (n : Nat) : Nat := n % 4294967296

def rotl (b n : Nat) : Nat := w32 ((n <<< b) ||| (n >>> (32 - b)))

def sha1F (t b c d : Nat) : Nat :=
  if t < 20 then (b &&& c) ||| ((4294967295 ^^^ b) &&& d)
  else if t < 40 then (b ^^^ c) ^^^ d
  else if t < 60 then ((b &&& c) ||| (b &&& d)) ||| (c &&& d)
  else (b ^^^ c) ^^^ d

def sha1K (t : Nat) : Nat :=
  if t < 20 then 1518500249
  else if t < 40 then 1859775393
  else if t < 60 then 2400959708
  else 3395469782

/-- Big-endian byte expansion, `k` bytes. -/
def bytesBE : Nat → Nat → List Nat
  | 0, _ => []
  | k + 1, n => bytesBE k (n / 256) ++ [n % 256]

/-- SHA-1 message padding: `0x80`, zeros to 56 mod 64, 8-byte bit length. -/
def sha1Pad (msg : List Nat) : List Nat :=
  let z := (119 - msg.length % 64) % 64
  msg ++ 128 :: List.replicate z 0 ++ bytesBE 8 (msg.length * 8)

/-- Split a list into chunks of `k` elements (k > 0), fuelled so the
recursion is structural (fuel = list length always suffices). -/
def chunksF (fuel k : Nat) (l : List α) : List (List α) :=
  match fuel, l with
  | 0, _ => []
  | _, [] => []
  | fuel + 1, a :: rest => (a :: rest).take k :: chunksF fuel k (rest.drop (k - 1))

/-- Split a list into chunks of `k` elements (k > 0). -/
def chunks (k : Nat) (l : List α) : List (List α) :=
  chunksF l.length k l

/-- Four big-endian bytes to one 32-bit word. -/
def wordOfBytes (bs : List Nat) : Nat :=
  bs.foldl (fun a b => a * 256 + b) 0

/-- One step of the W-schedule, over the reversed list of previous words. -/
def scheduleStep (rev : List Nat) : Nat :=
  rotl 1 (((rev.getD 2 0) ^^^ (rev.getD 7 0)) ^^^ ((rev.getD 13 0) ^^^ (rev.getD 15 0)))

/-- W[0..79] from the block's 16 words. -/
def sha1Schedule (ws : List Nat) : List Nat :=
  ((List.range 64).foldl (fun rev _ => scheduleStep rev :: rev) ws.reverse).reverse

abbrev Sha1State := Nat × Nat × Nat × Nat × Nat

def sha1Round (st : Sha1State) (tw : Nat × Nat) : Sha1State :=
  let (a, b, c, d, e) := st
  let temp := w32 (rotl 5 a + sha1F tw.1 b c d + e + sha1K tw.1 + tw.2)
  (temp, a, rotl 30 b, c, d)

def sha1Block (h : Sha1State) (block : List Nat) : Sha1State :=
  let ws := sha1Schedule ((chunks 4 block).map wordOfBytes)
  let (a, b, c, d, e) := ((List.range 80).zip ws).foldl sha1Round h
  let (h0, h1, h2, h3, h4) := h
  (w32 (h0 + a), w32 (h1 + b), w32 (h2 + c), w32 (h3 + d), w32 (h4 + e))

/-- SHA-1 digest (20 bytes) of a byte list. -/
def sha1 (msg : List Nat) : List Nat :=
  let (h0, h1, h2, h3, h4) :=
    (chunks 64 (sha1Pad msg)).foldl sha1Block
      (1732584193, 4023233417, 2562383102, 271733878, 3285377520)
  bytesBE 4 h0 ++ bytesBE 4 h1 ++ bytesBE 4 h2 ++ bytesBE 4 h3 ++ bytesBE 4 h4

def hexDigit (n : Nat) : Char :=
  match n with
  | 0 => '0' | 1 => '1' | 2 => '2' | 3 => '3' | 4 => '4'
  | 5 => '5' | 6 => '6' | 7 => '7' | 8 => '8' | 9 => '9'
  | 10 => 'a' | 11 => 'b' | 12 => 'c' | 13 => 'd' | 14 => 'e'
  | _ => 'f'

/-- Lowercase hex string of a byte list (`hashlib...hexdigest()`). -/
def toHex (bytes : List Nat) : String :=
  String.mk (bytes.foldl (fun acc b => acc ++ [hexDigit (b / 16), hexDigit (b % 16)]) [])

/-- `hashlib.sha1(s.encode('utf-8')).hexdigest()`. -/
def sha1Hex (s : String) : String := toHex (sha1 (utf8Bytes s))

/-- The canonical key joined inside `stable_id` (util.py lines 29–34):
the four critical fields, stripped, pipe-joined. -/
def canonicalKey (row : Row) : String :=
  String.intercalate "|"
    (["date", "description", "amount", "account"].map (fun col => pyStrip (dgetD row col "")))

/-- Python string slicing `s[:n]` (character-based, like `String.take`,
but written over the character list so the kernel can evaluate it). -/
def strTake (s : String) (n : Nat) : String :=
  String.mk (s.toList.take n)

/-- `stable_id` (util.py lines 27–35): first 10 hex characters of the SHA-1
of the canonical key. -/
def stable_id (row : Row) : String :=
  strTake (sha1Hex (canonicalKey row)) 10

/-! ### Changeset engine (`apply.py`, `apply_changeset`) -/

/-- Warnings `eprint`ed in skip-dangling mode, as an explicit log. -/
inductive Warn
  | danglingDelete (rid : String)
  | danglingUpdate (rid : String)
  | danglingSplit (rid : String)
  | unknownAction (row : Row)
deriving DecidableEq, Repr

/-- Aborts of `apply_changeset`: `sys.exit(...)` calls and the uncaught
exceptions its dict/float accesses can raise. -/
inductive ApplyError
  | emptyBase
  | missingIdKey (row : Row)
  | danglingDelete (rid : String)
  | danglingUpdate (rid : String)
  | danglingSplit (rid : String)
  | splitNoId
  | unknownAction (row : Row)
  | badFloat (s : String)
  | splitMismatch (total orig : Q)
deriving DecidableEq, Repr

/-- The loop state of `apply_changeset`'s first pass (apply.py lines 28–77):
the working map keyed by id, the field-name superset (kept as an
insertion-ordered list; only its set matters, it is sorted on return),
the buffered split groups, and the warning log. -/
structure ApplyState where
  merged : Dict Row
  all_fields : List String
  split_groups : Dict (List Row)
  warnings : List Warn
deriving DecidableEq, Repr

/-- `row.get('type', '').strip().lower()` (apply.py line 33). -/
def actionOf (row : Row) : String := pyLower (pyStrip (dgetD row "type" ""))

/-- `row.get('id', '').strip()` (apply.py line 34). -/
def idOf (row : Row) : String := pyStrip (dgetD row "id" "")

/-- `{k: v for k, v in row.items() if v and k not in ('id', 'type')}`
(apply.py lines 35–37). -/
def nonemptyFields (row : Row) : Row :=
  row.filter (fun kv => kv.2 ≠ "" && kv.1 ≠ "id" && kv.1 ≠ "type")

/-- Add a field name to the superset if new (`set.update`, determinised to
insertion order; the order is irrelevant, the result is sorted). -/
def insertField (fs : List String) (k : String) : List String :=
  if k ∈ fs then fs else fs ++ [k]

/-- `all_fields.update(row.keys())` (apply.py line 38). -/
def unionFields (fs : List String) (row : Row) : List String :=
  row.foldl (fun acc kv => insertField acc kv.1) fs

/-- The id generated for an `add` row: `stable_id` of the all-empty
defaults overlaid with the non-empty payload (apply.py lines 62–63). -/
def addNewId (fields : List String) (row : Row) : String :=
  stable_id (dupdate (fields.map (fun k => (k, ""))) (nonemptyFields row))

/-- The record an `add` row inserts (apply.py lines 62–64). -/
def addNewRow (fields : List String) (row : Row) : Row :=
  dset (dupdate (fields.map (fun k => (k, ""))) (nonemptyFields row)) "id"
    (addNewId fields row)

/-- One iteration of the first-pass loop (apply.py lines 32–77). -/
def step (skip : Bool) (st : ApplyState) (row : Row) : Except ApplyError ApplyState :=
  let action := actionOf row
  let rid := idOf row
  let ne := nonemptyFields row
  let fields' := unionFields st.all_fields row
  if action = "delete" then
    if (dlookup st.merged rid).isSome then
      .ok { st with merged := ddel st.merged rid, all_fields := fields' }
    else if skip then
      .ok { st with all_fields := fields', warnings := st.warnings ++ [.danglingDelete rid] }
    else .error (.danglingDelete rid)
  else if action = "update" then
    match dlookup st.merged rid with
    | some old =>
      .ok { st with merged := dset st.merged rid (dupdate old ne), all_fields := fields' }
    | none =>
      if skip then
        .ok { st with all_fields := fields', warnings := st.warnings ++ [.danglingUpdate rid] }
      else .error (.danglingUpdate rid)
  else if action = "add" then
    .ok { st with merged := dset st.merged (addNewId fields' row) (addNewRow fields' row),
                  all_fields := fields' }
  else if action = "split" then
    if rid = "" then .error .splitNoId
    else
      .ok { st with
              split_groups := dset st.split_groups rid (dgetD st.split_groups rid [] ++ [ne]),
              all_fields := fields' }
  else if skip then
    .ok { st with all_fields := fields', warnings := st.warnings ++ [.unknownAction row] }
  else .error (.unknownAction row)

/-- The whole first pass, in input order. -/
def processOps (skip : Bool) (st : ApplyState) (ops : List Row) : Except ApplyError ApplyState :=
  ops.foldlM (step skip) st

/-- `float(r.get('amount', 0.0))` (apply.py lines 90–91). -/
def getAmount (r : Row) : Except ApplyError Q :=
  match dlookup r "amount" with
  | none => .ok qzero
  | some v =>
    match parseFloat v with
    | some q => .ok q
    | none => .error (.badFloat v)

/-- `sum(float(s.get('amount', 0.0)) for s in splits)` (apply.py line 91). -/
def sumAmounts (splits : List Row) : Except ApplyError Q :=
  splits.foldlM (fun acc s => do pure (qadd acc (← getAmount s))) qzero

/-- The fresh id of one split part: `stable_id` of the original row
overlaid with the part's fields (apply.py lines 103–105). -/
def splitNewId (original s : Row) : String :=
  stable_id (dupdate original s)

/-- The new record for one split part: the overlay, with its `id` set to
the fresh id (apply.py lines 103–106). -/
def splitNewRow (original s : Row) : Row :=
  dset (dupdate original s) "id" (splitNewId original s)

/-- Processing of one buffered split group (apply.py lines 80–107). -/
def applyGroup (skip : Bool) (acc : Dict Row × List Warn) (g : String × List Row) :
    Except ApplyError (Dict Row × List Warn) :=
  let (merged, warns) := acc
  let (rid, splits) := g
  match dlookup merged rid with
  | none =>
    if skip then .ok (merged, warns ++ [.danglingSplit rid])
    else .error (.danglingSplit rid)
  | some original => do
    let origAmount ← getAmount original
    let splitTotal ← sumAmounts splits
    if qlt qtol (qabs (qsub splitTotal origAmount)) then
      .error (.splitMismatch splitTotal origAmount)
    else
      .ok (splits.foldl (fun m s => dset m (splitNewId original s) (splitNewRow original s))
             (ddel merged rid),
           warns)

/-- The deferred-split pass (apply.py lines 79–107). -/
def applySplits (skip : Bool) (merged : Dict Row) (groups : Dict (List Row))
    (warns : List Warn) : Except ApplyError (Dict Row × List Warn) :=
  groups.foldlM (applyGroup skip) (merged, warns)

/-- One step of the base-map comprehension: key the row by its raw `id`
value, `KeyError` if absent. -/
def initMergedStep (acc : Dict Row) (row : Row) : Except ApplyError (Dict Row) :=
  match dlookup row "id" with
  | none => .error (.missingIdKey row)
  | some i => .ok (dset acc i row)

/-- `{row['id']: row.copy() for row in primary_rows}` (apply.py line 28);
a row without an `'id'` key raises `KeyError`. -/
def initMerged (primary : List Row) : Except ApplyError (Dict Row) :=
  primary.foldlM initMergedStep []

/-- Lexicographic code-point comparison (Python string `<=`). -/
def strLeList : List Char → List Char → Bool
  | [], _ => true
  | _ :: _, [] => false
  | a :: as, b :: bs =>
    if a.toNat < b.toNat then true
    else if b.toNat < a.toNat then false
    else strLeList as bs

def strLe (a b : String) : Bool := strLeList a.toList b.toList

/-- Stable insertion sort by `strLe` (Python `sorted` on strings compares
by code point, exactly this order). -/
def insertSorted (x : String) : List String → List String
  | [] => [x]
  | y :: rest => if strLe x y then x :: y :: rest else y :: insertSorted x rest

def sortStrings (l : List String) : List String := l.foldr insertSorted []

/-- `apply_changeset` (apply.py lines 14–109). Returns the merged rows,
the sorted field-name superset, and the warning log; `.error` models
`sys.exit` / an uncaught exception. -/
def apply_changeset (primary_rows changeset : List Row) (skip_dangling : Bool := false) :
    Except ApplyError (List Row × List String × List Warn) := do
  let merged ← initMerged primary_rows
  match primary_rows with
  | [] => .error .emptyBase
  | first :: _ =>
    let st0 : ApplyState := ⟨merged, unionFields [] first, [], []⟩
    let st ← processOps skip_dangling st0 changeset
    let (merged', warns) ← applySplits skip_dangling st.merged st.split_groups st.warnings
    .ok (merged'.map Prod.snd, sortStrings st.all_fields, warns)

/-! ### Changeset engine, earlier iteration (`merge.py`, `apply_changeset`) -/

/-- `{k: v for k, v in row.items() if v and k != 'id'}` (merge.py line 48). -/
def mergeNonemptyFields (row : Row) : Row :=
  row.filter (fun kv => kv.2 ≠ "" && kv.1 ≠ "id")

/-- One iteration of merge.py's loop (lines 46–80): dispatch on the shape
of the row (id and/or non-empty fields) instead of a `type` tag. -/
def mergeStep (skip : Bool) (st : Dict Row × List String × List Warn) (row : Row) :
    Except ApplyError (Dict Row × List String × List Warn) :=
  let (merged, all_fields, warns) := st
  let rid := idOf row
  let ne := mergeNonemptyFields row
  let fields' := unionFields all_fields row
  if rid ≠ "" ∧ ne = [] then
    if (dlookup merged rid).isSome then .ok (ddel merged rid, fields', warns)
    else if skip then .ok (merged, fields', warns ++ [.danglingDelete rid])
    else .error (.danglingDelete rid)
  else if rid ≠ "" ∧ ne ≠ [] then
    match dlookup merged rid with
    | some old => .ok (dset merged rid (dupdate old ne), fields', warns)
    | none =>
      if skip then .ok (merged, fields', warns ++ [.danglingUpdate rid])
      else .error (.danglingUpdate rid)
  else if rid = "" ∧ ne ≠ [] then
    let new_row := dset (dupdate (fields'.map (fun k => (k, ""))) ne) "id" ""
    let new_id := stable_id new_row
    let new_row := dset new_row "id" new_id
    .ok (dset merged new_id new_row, fields', warns)
  else if skip then .ok (merged, fields', warns ++ [.unknownAction row])
  else .error (.unknownAction row)

/-- `apply_changeset` of merge.py (lines 39–82). -/
def merge_apply_changeset (primary_rows changeset : List Row) (skip_dangling : Bool := false) :
    Except ApplyError (List Row × List String × List Warn) := do
  let merged ← initMerged primary_rows
  match primary_rows with
  | [] => .error .emptyBase
  | first :: _ =>
    let (merged', fields', warns) ←
      changeset.foldlM (mergeStep skip_dangling) (merged, unionFields [] first, [])
    .ok (merged'.map Prod.snd, sortStrings fields', warns)

/-! ### Indexed record store (`csv_tools.py`, `LargeCSV`) -/

/-- Errors of the store's batch operations: `KeyError` on a row without
the id column, and `csv.DictWriter`'s `ValueError` on a row carrying a
key outside `fieldnames` (`extrasaction` defaults to `'raise'`). -/
inductive CsvError
  | missingIdColumn (row : Row)
  | extraKey (row : Row)
deriving DecidableEq, Repr

/-- `csv.DictWriter(..., fieldnames).writerow(r)`: project the row onto
the `fieldnames` columns in order (missing values default to `''`),
raising if the row has a key outside `fieldnames`. -/
def writeRow (fieldnames : List String) (r : Row) : Except CsvError Row :=
  if r.all (fun kv => fieldnames.contains kv.1) then
    .ok (fieldnames.map (fun f => (f, dgetD r f "")))
  else .error (.extraKey r)

/-- `set.add`, determinised to insertion order. -/
def insertSet (l : List String) (x : String) : List String :=
  if x ∈ l then l else l ++ [x]

/-- One iteration of `batch_update`'s rewrite loop (csv_tools.py lines
125–132): read the row's id (`KeyError` if the id column is absent),
merge the matching field updates if any and record the id as matched,
then write the row to the temp file. -/
def batchUpdateStep (idCol : String) (fieldnames : List String) (updates : Dict Row)
    (acc : List Row × List String) (row : Row) :
    Except CsvError (List Row × List String) := do
  let rid ← match dlookup row idCol with
    | some r => Except.ok r
    | none => Except.error (CsvError.missingIdColumn row)
  let (row', matched) :=
    match dlookup updates rid with
    | some upd => (dupdate row upd, insertSet acc.2 rid)
    | none => (row, acc.2)
  let out ← writeRow fieldnames row'
  Except.ok (acc.1 ++ [out], matched)

/-- `LargeCSV.batch_update` (csv_tools.py lines 114–136), at the level of
the parsed row sequence: the data file is the list of rows `DictReader`
yields, the rewritten temp file is the returned row list, and the
returned id set is the `updated` set. Offsets and the sidecar index are
below this abstraction (the claim under verification does not mention
them). -/
def batch_update (idCol : String) (fieldnames : List String) (rows : List Row)
    (updates : Dict Row) : Except CsvError (List Row × List String) :=
  rows.foldlM (batchUpdateStep idCol fieldnames updates) ([], [])

/-- `LargeCSV.read_many` (csv_tools.py lines 66–80). The file side is
abstracted by `lineAt`, the parsed row obtained by seeking to a byte
offset and reading one line (`dict(zip(fieldnames, line.strip().split(',')))`),
and `fileRows` is the full sequential scan taken when no ids are given.
The loop mirrors the generator exactly: `return None` on a missing id
terminates the generator. -/
def read_many_loop (lineAt : Nat → Row) (index : Dict Nat) : List String → List Row
  | [] => []
  | i :: rest =>
    match dlookup index i with
    | none => []
    | some off => lineAt off :: read_many_loop lineAt index rest

def read_many (fileRows : List Row) (lineAt : Nat → Row) (index : Dict Nat)
    (ids : List String) : List Row :=
  match ids with
  | [] => fileRows
  | _ :: _ => read_many_loop lineAt index ids

/-- What claim C8 asserts `read_many` does on an explicit id sequence:
yield the indexed record for each present id and skip each absent id,
continuing past it. (Stated from the claim's words, to be compared with
`read_many`, which is translated from the source.) -/
def read_many_claimed (lineAt : Nat → Row) (index : Dict Nat) (ids : List String) :
    List Row :=
  ids.filterMap (fun i => (dlookup index i).map lineAt)

/-! ### Atomic update transaction (`utils.py`, `safe_file_update_context`) -/

/-- A filesystem: a dict from path to file contents. -/
abbrev FS := Dict String

/-- `Path.replace`: atomically rename `src` over `dst`. -/
def fsRename (fs : FS) (src dst : String) : FS :=
  match dlookup fs src with
  | none => fs
  | some c => ddel (dset fs dst c) src

/-- Outcome of the context manager: normal exit, or the wrapped
`RuntimeError('Failed to update {original_path}: {e}')`. -/
inductive UpdateOutcome
  | ok
  | wrappedError (target : String) (msg : String)
deriving DecidableEq, Repr

/-- `safe_file_update_context` (utils.py lines 38–81). `temp` is the fresh
name `NamedTemporaryFile` picks (hypotheses state its freshness), and the
caller's block is a function from the temp file's contents to either new
contents or a raised exception, mirroring the intended protocol in which
the caller reads and writes the yielded temp path. Returns the final
filesystem and the outcome. -/
def safe_file_update_context (fs : FS) (orig temp : String)
    (body : String → Except String String) (keep_backup dry_run : Bool) :
    FS × UpdateOutcome :=
  let fs1 := dset fs temp ""
  let fs2 := match dlookup fs orig with
    | some c => dset fs1 temp c
    | none => fs1
  match body (dgetD fs2 temp "") with
  | .error e => (ddel fs2 temp, .wrappedError orig e)
  | .ok newTemp =>
    let fs3 := dset fs2 temp newTemp
    if dry_run then (fs3, .ok)
    else
      let fs4 :=
        if keep_backup then
          match dlookup fs3 orig with
          | some c => dset fs3 (orig ++ ".bak") c
          | none => fs3
        else fs3
      (fsRename fs4 temp orig, .ok)

/-- The row a matched line is merged into during `batch_update`
(csv_tools.py lines 126–128), named for the statements below. -/
def mergedRowFor (updates : Dict Row) (idCol : String) (row : Row) : Row :=
  match dlookup updates (dgetD row idCol "") with
  | some upd => dupdate row upd
  | none => row

/-- The projection `DictWriter.writerow` performs on a row whose keys all
lie in `fieldnames`. -/
def projRow (fieldnames : List String) (r : Row) : Row :=
  fieldnames.map (fun f => (f, dgetD r f ""))

/-- The `updated`-set accumulation of `batch_update`'s loop. -/
def collectMatched (updates : Dict Row) (idCol : String) (acc : List String)
    (row : Row) : List String :=
  if (dlookup updates (dgetD row idCol "")).isSome then
    insertSet acc (dgetD row idCol "")
  else acc

/-! ### Concrete fixtures (spec §8 scenarios) -/

/-- Scenario A/B base store: three records with ids 1, 2, 3. -/
def scenarioA_base : List Row :=
  [[("id", "1"), ("date", "2024-01-01"), ("description", "a"), ("amount", "1.00"),
    ("account", "x"), ("category", "")],
   [("id", "2"), ("date", "2024-01-02"), ("description", "b"), ("amount", "2.00"),
    ("account", "x"), ("category", "")],
   [("id", "3"), ("date", "2024-01-03"), ("description", "c"), ("amount", "3.00"),
    ("account", "x"), ("category", "")]]

/-- Scenario A changeset: an in-range update and a dangling delete. -/
def scenarioA_changeset : List Row :=
  [[("type", "update"), ("id", "2"), ("category", "Groceries")],
   [("type", "delete"), ("id", "5")]]

/-- Scenario B/C base store: one record with id 4 and amount 100.00. -/
def scenarioB_base : List Row :=
  [[("id", "4"), ("date", "2024-01-01"), ("description", "store"),
    ("amount", "100.00"), ("account", "checking")]]

/-- Scenario B changeset: a split of 100.00 into 40.00 and 60.00. -/
def scenarioB_parts : List Row :=
  [[("type", "split"), ("id", "4"), ("amount", "40.00")],
   [("type", "split"), ("id", "4"), ("amount", "60.00")]]

/-- Scenario C changeset: a mismatching split (40.00 + 50.00 ≠ 100.00). -/
def scenarioC_parts : List Row :=
  [[("type", "split"), ("id", "4"), ("amount", "40.00")],
   [("type", "split"), ("id", "4"), ("amount", "50.00")]]

/-! ### Dictionary lemmas -/

theorem dlookup_dset (d : Dict α) (k k' : String) (v : α) :
    dlookup (dset d k v) k' = if k = k' then some v else dlookup d k' := by
  induction d with
  | nil => simp [dset, dlookup]
  | cons kv rest ih =>
    obtain ⟨k0, v0⟩ := kv
    by_cases h : k0 = k
    · subst h
      by_cases h' : k0 = k' <;> simp [dset, dlookup, h']
    · by_cases h' : k0 = k'
      · subst h'
        have : ¬ k = k0 := fun hh => h hh.symm
        simp [dset, dlookup, h, this]
      · simp [dset, dlookup, h, h', ih]

theorem dlookup_dset_self (d : Dict α) (k : String) (v : α) :
    dlookup (dset d k v) k = some v := by
  simp [dlookup_dset]

theorem dlookup_ddel_ne (d : Dict α) (k k' : String) (h : k ≠ k') :
    dlookup (ddel d k) k' = dlookup d k' := by
  induction d with
  | nil => simp [ddel]
  | cons kv rest ih =>
    obtain ⟨k0, v0⟩ := kv
    by_cases h0 : k0 = k
    · subst h0
      simp [ddel, dlookup, h]
    · by_cases h0' : k0 = k'
      · subst h0'
        simp [ddel, dlookup, h0]
      · simp [ddel, dlookup, h0, h0', ih]

theorem mem_dkeys_iff (d : Dict α) (k : String) :
    k ∈ dkeys d ↔ (dlookup d k).isSome := by
  induction d with
  | nil => simp [dkeys, dlookup]
  | cons kv rest ih =>
    obtain ⟨k0, v0⟩ := kv
    by_cases h : k0 = k
    · subst h; simp [dkeys, dlookup]
    · have : ¬ k = k0 := fun hh => h hh.symm
      simp [dkeys, dlookup, h, this] at ih ⊢
      exact ih

theorem dlookup_ddel_self (d : Dict α) (k : String) (hnd : (dkeys d).Nodup) :
    dlookup (ddel d k) k = none := by
  induction d with
  | nil => simp [ddel, dlookup]
  | cons kv rest ih =>
    obtain ⟨k0, v0⟩ := kv
    simp only [dkeys, List.map_cons, List.nodup_cons] at hnd
    by_cases h : k0 = k
    · subst h
      have : k0 ∉ dkeys rest := hnd.1
      rw [mem_dkeys_iff] at this
      simp [ddel, Option.isSome] at this ⊢
      cases hl : dlookup rest k0 with
      | none => rfl
      | some v => rw [hl] at this; simp at this
    · simp [ddel, dlookup, h]
      exact ih hnd.2

theorem dkeys_dset (d : Dict α) (k : String) (v : α) :
    dkeys (dset d k v) = if k ∈ dkeys d then dkeys d else dkeys d ++ [k] := by
  induction d with
  | nil => simp [dset, dkeys]
  | cons kv rest ih =>
    obtain ⟨k0, v0⟩ := kv
    by_cases h : k0 = k
    · subst h; simp [dset, dkeys]
    · have hne : ¬ k = k0 := fun hh => h hh.symm
      by_cases hm : k ∈ dkeys rest
      · simp only [dkeys] at hm
        simp [dset, dkeys, h, hne, hm] at ih ⊢
        exact ih
      · simp only [dkeys] at hm
        simp [dset, dkeys, h, hne, hm] at ih ⊢
        exact ih

theorem mem_dkeys_ddel (d : Dict α) (k x : String) (h : x ∈ dkeys (ddel d k)) :
    x ∈ dkeys d := by
  induction d with
  | nil => simp [ddel, dkeys] at h
  | cons kv rest ih =>
    obtain ⟨k0, v0⟩ := kv
    by_cases h0 : k0 = k
    · subst h0
      simp only [ddel, if_pos rfl] at h
      simp only [dkeys, List.map_cons, List.mem_cons]
      exact Or.inr h
    · simp only [ddel, if_neg h0, dkeys, List.map_cons, List.mem_cons] at h ⊢
      rcases h with h | h
      · exact Or.inl h
      · exact Or.inr (ih h)

theorem nodup_dkeys_ddel (d : Dict α) (k : String) (hnd : (dkeys d).Nodup) :
    (dkeys (ddel d k)).Nodup := by
  induction d with
  | nil => simpa [ddel] using hnd
  | cons kv rest ih =>
    obtain ⟨k0, v0⟩ := kv
    simp only [dkeys, List.map_cons, List.nodup_cons] at hnd
    by_cases h : k0 = k
    · subst h
      simpa [ddel, dkeys] using hnd.2
    · have hd : ddel ((k0, v0) :: rest) k = (k0, v0) :: ddel rest k := by
        simp [ddel, h]
      rw [hd]
      simp only [dkeys, List.map_cons, List.nodup_cons]
      exact ⟨fun hmem => hnd.1 (mem_dkeys_ddel rest k k0 hmem), ih hnd.2⟩

theorem nodup_dkeys_dset (d : Dict α) (k : String) (v : α) (hnd : (dkeys d).Nodup) :
    (dkeys (dset d k v)).Nodup := by
  rw [dkeys_dset]
  by_cases h : k ∈ dkeys d
  · simpa [h]
  · simp [h, List.nodup_append, hnd]

theorem dset_eq_append (d : Dict α) (k : String) (v : α) (h : dlookup d k = none) :
    dset d k v = d ++ [(k, v)] := by
  induction d with
  | nil => simp [dset]
  | cons kv rest ih =>
    obtain ⟨k0, v0⟩ := kv
    by_cases h0 : k0 = k
    · subst h0; simp [dlookup] at h
    · simp [dlookup, h0] at h
      simp [dset, h0, ih h]

theorem dlookup_dupdate (d u : Dict α) (k : String) (hnd : (dkeys u).Nodup) :
    dlookup (dupdate d u) k =
      match dlookup u k with
      | some v => some v
      | none => dlookup d k := by
  induction u generalizing d with
  | nil => simp [dupdate, dlookup]
  | cons kv rest ih =>
    obtain ⟨k0, v0⟩ := kv
    simp only [dkeys, List.map_cons, List.nodup_cons] at hnd
    have step : dupdate d ((k0, v0) :: rest) = dupdate (dset d k0 v0) rest := by
      simp [dupdate]
    rw [step, ih (dset d k0 v0) hnd.2]
    cases hc : dlookup rest k with
    | some v =>
      have hk : k ∈ dkeys rest := by rw [mem_dkeys_iff, hc]; rfl
      have hne : ¬ k0 = k := fun hh => hnd.1 (hh ▸ hk)
      simp [dlookup, hne, hc]
    | none =>
      by_cases h0 : k0 = k
      · subst h0; simp [dlookup, dlookup_dset, hc]
      · simp [dlookup, dlookup_dset, h0, hc]

theorem dlookup_mem (d : Dict α) (k : String) (v : α) (h : dlookup d k = some v) :
    (k, v) ∈ d := by
  induction d with
  | nil => simp [dlookup] at h
  | cons kv rest ih =>
    obtain ⟨k0, v0⟩ := kv
    by_cases h0 : k0 = k
    · subst h0
      simp [dlookup] at h
      simp [h]
    · simp [dlookup, h0] at h
      simp [ih h]

theorem mem_dkeys_dupdate (d u : Dict α) (x : String) (h : x ∈ dkeys (dupdate d u)) :
    x ∈ dkeys d ∨ x ∈ dkeys u := by
  induction u generalizing d with
  | nil => simpa [dupdate] using Or.inl h
  | cons kv rest ih =>
    obtain ⟨k0, v0⟩ := kv
    have step : dupdate d ((k0, v0) :: rest) = dupdate (dset d k0 v0) rest := by
      simp [dupdate]
    rw [step] at h
    rcases ih (dset d k0 v0) h with h' | h'
    · rw [dkeys_dset] at h'
      by_cases hm : k0 ∈ dkeys d
      · simp [hm] at h'; exact Or.inl h'
      · simp [hm] at h'
        rcases h' with h' | h'
        · exact Or.inl h'
        · subst h'; simp [dkeys]
    · right; simp [dkeys] at h' ⊢; exact Or.inr h'

theorem dgetD_dupdate (d u : Dict α) (k : String) (dflt : α) (hnd : (dkeys u).Nodup) :
    dgetD (dupdate d u) k dflt =
      if (dlookup u k).isSome then dgetD u k dflt else dgetD d k dflt := by
  unfold dgetD
  rw [dlookup_dupdate d u k hnd]
  cases h : dlookup u k <;> simp [h]

theorem dset_dset_same (d : Dict α) (k : String) (v v' : α) :
    dset (dset d k v) k v' = dset d k v' := by
  induction d with
  | nil => simp [dset]
  | cons kv rest ih =>
    obtain ⟨k0, v0⟩ := kv
    by_cases h : k0 = k <;> simp [dset, h, ih]

theorem ddel_dset_fresh (d : Dict α) (k : String) (v : α) (h : dlookup d k = none) :
    ddel (dset d k v) k = d := by
  induction d with
  | nil => simp [dset, ddel]
  | cons kv rest ih =>
    obtain ⟨k0, v0⟩ := kv
    by_cases h0 : k0 = k
    · subst h0; simp [dlookup] at h
    · simp [dlookup, h0] at h
      simp [dset, ddel, h0, ih h]

theorem nodup_dkeys_filter (d : Dict α) (p : String × α → Bool)
    (hnd : (dkeys d).Nodup) : (dkeys (d.filter p)).Nodup := by
  have hs : (List.filter p d).Sublist d := List.filter_sublist d
  exact (hs.map Prod.fst).nodup hnd

/-! ### Claim theorems: easy group -/

/-- C10: the changeset engine requires a non-empty base record set.
`apply_changeset` (and the earlier `merge.py` variant) reads
`primary_rows[0].keys()` before looking at any operation, so on an empty
base both abort immediately (an uncaught `IndexError`), for every
changeset and in both dangling modes. -/
theorem apply_changeset_requires_nonempty_base (changeset : List Row) (skip : Bool) :
    apply_changeset [] changeset skip = .error .emptyBase ∧
    merge_apply_changeset [] changeset skip = .error .emptyBase :=
  ⟨rfl, rfl⟩

/-- C2: if the caller's block raises, `safe_file_update_context` deletes
the temp file, leaves every other path — in particular the original —
exactly as it was, and re-raises a wrapped error naming the target path
(in fact the filesystem is returned exactly as it started). -/
theorem safe_file_update_context_rollback (fs : FS) (orig temp : String)
    (body : String → Except String String) (kb dr : Bool) (e : String)
    (_hne : temp ≠ orig) (hfresh : dlookup fs temp = none)
    (hbody : body (dgetD fs orig "") = .error e) :
    safe_file_update_context fs orig temp body kb dr =
      (fs, .wrappedError orig e) := by
  unfold safe_file_update_context
  cases horig : dlookup fs orig with
  | none =>
    have hcontents : dgetD (dset fs temp "") temp "" = dgetD fs orig "" := by
      simp [dgetD, dlookup_dset_self, horig]
    simp only [horig, hcontents, hbody]
    rw [ddel_dset_fresh fs temp "" hfresh]
  | some c =>
    have hcontents :
        dgetD (dset (dset fs temp "") temp c) temp "" = dgetD fs orig "" := by
      simp [dgetD, dlookup_dset_self, dset_dset_same, horig]
    simp only [horig, hcontents, hbody]
    rw [dset_dset_same, ddel_dset_fresh fs temp c hfresh]

/-- Closed witness for C2 at a concrete filesystem. -/
theorem safe_file_update_context_rollback_witness :
    ("t.tmp" : String) ≠ "data.csv" ∧
    dlookup [("data.csv", "a,b")] "t.tmp" = none ∧
    safe_file_update_context [("data.csv", "a,b")] "data.csv" "t.tmp"
      (fun _ => .error "boom") true false =
      ([("data.csv", "a,b")], .wrappedError "data.csv" "boom") :=
  ⟨by decide, by decide,
    safe_file_update_context_rollback [("data.csv", "a,b")] "data.csv" "t.tmp"
      (fun _ => .error "boom") true false "boom" (by decide) (by decide) rfl⟩

theorem stable_id_congr (r1 r2 : Row)
    (h1 : dgetD r1 "date" "" = dgetD r2 "date" "")
    (h2 : dgetD r1 "description" "" = dgetD r2 "description" "")
    (h3 : dgetD r1 "amount" "" = dgetD r2 "amount" "")
    (h4 : dgetD r1 "account" "" = dgetD r2 "account" "") :
    stable_id r1 = stable_id r2 := by
  unfold stable_id sha1Hex canonicalKey
  simp only [List.map_cons, List.map_nil, h1, h2, h3, h4]

/-- C3: `stable_id` is exactly the first 10 hex characters of the SHA-1
digest (over UTF-8 bytes) of the pipe-joined, stripped values of
`date`, `description`, `amount`, `account`; hence it depends on nothing
but those four values. -/
theorem stable_id_canonical (r1 : Row) :
    (stable_id r1 = strTake (toHex (sha1 (utf8Bytes (String.intercalate "|"
        [pyStrip (dgetD r1 "date" ""), pyStrip (dgetD r1 "description" ""),
         pyStrip (dgetD r1 "amount" ""), pyStrip (dgetD r1 "account" "")])))) 10) ∧
    ∀ r2 : Row, dgetD r1 "date" "" = dgetD r2 "date" "" →
      dgetD r1 "description" "" = dgetD r2 "description" "" →
      dgetD r1 "amount" "" = dgetD r2 "amount" "" →
      dgetD r1 "account" "" = dgetD r2 "account" "" →
      stable_id r1 = stable_id r2 := by
  constructor
  · rfl
  · intro r2 h1 h2 h3 h4
    exact stable_id_congr r1 r2 h1 h2 h3 h4

/-- Closed witness for C3: two rows agreeing on the four canonical fields
but differing in `category` and `notes` get the same id. -/
theorem stable_id_canonical_witness :
    stable_id [("date", "2024-01-01"), ("description", "store"), ("amount", "100.00"),
        ("account", "checking"), ("category", "food")] =
      stable_id [("notes", "x"), ("date", "2024-01-01"), ("description", "store"),
        ("amount", "100.00"), ("account", "checking"), ("category", "rent")] :=
  (stable_id_canonical _).2 _ rfl rfl rfl rfl

theorem dlookup_eq_none_of_not_mem (d : Dict α) (k : String) (h : k ∉ dkeys d) :
    dlookup d k = none := by
  cases hl : dlookup d k with
  | none => rfl
  | some v => exact absurd ((mem_dkeys_iff d k).mpr (by rw [hl]; rfl)) h

theorem mem_dkeys_filter (d : Dict α) (p : String × α → Bool) (k : String)
    (h : k ∈ dkeys (d.filter p)) : k ∈ dkeys d :=
  (((List.filter_sublist d).map Prod.fst).subset) h

/-- C8 counterexample: the generator's `return None` on an absent id ends
iteration, so a present id occurring after an absent id is not yielded —
refuting the claimed skip-and-continue behaviour at a one-entry index. -/
theorem read_many_counterexample :
    read_many [] (fun _ => [("id", "a")]) [("a", 0)] ["b", "a"] = [] ∧
    read_many_claimed (fun _ => [("id", "a")]) [("a", 0)] ["b", "a"] = [[("id", "a")]] ∧
    read_many [] (fun _ => [("id", "a")]) [("a", 0)] ["b", "a"] ≠
      read_many_claimed (fun _ => [("id", "a")]) [("a", 0)] ["b", "a"] :=
  ⟨rfl, rfl, by decide⟩

theorem read_many_loop_eq (lineAt : Nat → Row) (index : Dict Nat) (ids : List String) :
    read_many_loop lineAt index ids =
      (ids.takeWhile (fun j => (dlookup index j).isSome)).map
        (fun j => lineAt (dgetD index j 0)) := by
  induction ids with
  | nil => simp [read_many_loop]
  | cons i rest ih =>
    cases h : dlookup index i with
    | none => simp [read_many_loop, h, List.takeWhile_cons]
    | some off => simp [read_many_loop, h, List.takeWhile_cons, dgetD, ih]

/-- C8 amended: on a non-empty id sequence, the multi-id read yields the
indexed record for each id of the longest all-present starting segment of
the request, and stops (without error) at the first absent id, yielding
nothing for it or for any later id. -/
theorem read_many_yields_present_starting_segment (fileRows : List Row)
    (lineAt : Nat → Row) (index : Dict Nat) (i : String) (rest : List String) :
    read_many fileRows lineAt index (i :: rest) =
      ((i :: rest).takeWhile (fun j => (dlookup index j).isSome)).map
        (fun j => lineAt (dgetD index j 0)) :=
  read_many_loop_eq lineAt index (i :: rest)

theorem dlookup_nonemptyFields (row : Row) (k : String) (hnd : (dkeys row).Nodup) :
    dlookup (nonemptyFields row) k =
      if k ≠ "id" ∧ k ≠ "type" ∧ dgetD row k "" ≠ "" then dlookup row k else none := by
  induction row with
  | nil => simp [nonemptyFields, dlookup]
  | cons kv rest ih =>
    obtain ⟨k0, v0⟩ := kv
    simp only [dkeys, List.map_cons, List.nodup_cons] at hnd
    by_cases hk : k0 = k
    · subst hk
      have hg : dgetD ((k0, v0) :: rest) k0 "" = v0 := by simp [dgetD, dlookup]
      by_cases hp : v0 ≠ "" ∧ k0 ≠ "id" ∧ k0 ≠ "type"
      · have hfilter : nonemptyFields ((k0, v0) :: rest) =
            (k0, v0) :: nonemptyFields rest := by
          simp [nonemptyFields, List.filter_cons, hp.1, hp.2.1, hp.2.2]
        rw [hfilter, hg]
        simp [dlookup, hp.1, hp.2.1, hp.2.2]
      · have hfilter : nonemptyFields ((k0, v0) :: rest) = nonemptyFields rest := by
          simp only [nonemptyFields, List.filter_cons]
          have : (v0 ≠ "" && k0 ≠ "id" && k0 ≠ "type") = false := by
            rcases not_and_or.mp hp with h | h
            · simp at h; simp [h]
            · rcases not_and_or.mp h with h' | h'
              · simp at h'; simp [h']
              · simp at h'; simp [h']
          rw [this]
          rfl
        rw [hfilter, hg]
        have hnone : dlookup (nonemptyFields rest) k0 = none := by
          apply dlookup_eq_none_of_not_mem
          intro hmem
          exact hnd.1 (mem_dkeys_filter rest _ k0 hmem)
        rw [hnone]
        have : ¬ (k0 ≠ "id" ∧ k0 ≠ "type" ∧ v0 ≠ "") := by tauto
        simp [this]
    · have hg : dgetD ((k0, v0) :: rest) k "" = dgetD rest k "" := by
        simp [dgetD, dlookup, hk]
      have hl : dlookup ((k0, v0) :: rest) k = dlookup rest k := by
        simp [dlookup, hk]
      by_cases hp : (v0 ≠ "" && k0 ≠ "id" && k0 ≠ "type") = true
      · have hfilter : nonemptyFields ((k0, v0) :: rest) =
            (k0, v0) :: nonemptyFields rest := by
          simp only [nonemptyFields, List.filter_cons, hp]
          rfl
        rw [hfilter, hg, hl]
        simp only [dlookup, if_neg hk]
        exact ih hnd.2
      · have hfilter : nonemptyFields ((k0, v0) :: rest) = nonemptyFields rest := by
          simp only [nonemptyFields, List.filter_cons,
            Bool.not_eq_true (v0 ≠ "" && k0 ≠ "id" && k0 ≠ "type") ▸ hp]
          simp at hp
          simp [hp]
        rw [hfilter, hg, hl]
        exact ih hnd.2

/-- C6: an `update` against a present id merges exactly the payload fields
carrying a non-empty value into the existing record (and updates the
field superset); a field given an empty value, a field named `id` or
`type`, and a field not mentioned at all are left at the old record's
value — empty means no-op, not clear. -/
theorem update_overlays_only_nonempty (skip : Bool) (st : ApplyState) (row old : Row)
    (hact : actionOf row = "update") (hnd : (dkeys row).Nodup)
    (hmem : dlookup st.merged (idOf row) = some old) :
    step skip st row = .ok { st with
        merged := dset st.merged (idOf row) (dupdate old (nonemptyFields row)),
        all_fields := unionFields st.all_fields row } ∧
    ∀ k, dgetD (dupdate old (nonemptyFields row)) k "" =
      if k ≠ "id" ∧ k ≠ "type" ∧ dgetD row k "" ≠ "" then dgetD row k ""
      else dgetD old k "" := by
  constructor
  · simp [step, hact, hmem]
  · intro k
    have hndf : (dkeys (nonemptyFields row)).Nodup := nodup_dkeys_filter row _ hnd
    rw [dgetD_dupdate old _ k "" hndf, dlookup_nonemptyFields row k hnd]
    by_cases hc : k ≠ "id" ∧ k ≠ "type" ∧ dgetD row k "" ≠ ""
    · cases hv : dlookup row k with
      | none => exact absurd (by simp [dgetD, hv]) hc.2.2
      | some v =>
        have hv' : v ≠ "" := by
          intro h0
          exact hc.2.2 (by simp [dgetD, hv, h0])
        simp [hc, hv, hv', dgetD, dlookup_nonemptyFields row k hnd]
    · simp [hc]

/-- Closed witness for C6 at a concrete state: payload `category` is
merged, empty payload `notes` and unmentioned `amount` are untouched. -/
theorem update_overlays_only_nonempty_witness :
    step true ⟨[("2", [("id", "2"), ("amount", "5.00"), ("notes", "keep")])], ["id"], [], []⟩
        [("type", "update"), ("id", "2"), ("category", "Groceries"), ("notes", "")] =
      .ok { merged := dset [("2", [("id", "2"), ("amount", "5.00"), ("notes", "keep")])] "2"
              (dupdate [("id", "2"), ("amount", "5.00"), ("notes", "keep")]
                (nonemptyFields [("type", "update"), ("id", "2"), ("category", "Groceries"), ("notes", "")])),
            all_fields := unionFields ["id"]
              [("type", "update"), ("id", "2"), ("category", "Groceries"), ("notes", "")],
            split_groups := [], warnings := [] } :=
  (update_overlays_only_nonempty true
    ⟨[("2", [("id", "2"), ("amount", "5.00"), ("notes", "keep")])], ["id"], [], []⟩
    [("type", "update"), ("id", "2"), ("category", "Groceries"), ("notes", "")]
    [("id", "2"), ("amount", "5.00"), ("notes", "keep")]
    (by decide) (by decide) (by decide)).1

/-- C4: a delete/update/split against an id absent from the working set is
a warning plus a no-op in skip-dangling mode (and processing continues
with the rest of the changeset), and an abort otherwise; in particular,
Scenario A: updating id 2 and deleting absent id 5 over a 3-record store
with skip-dangling on sets record 2's category to Groceries, logs one
dangling-delete warning, and keeps 3 records — while without skip-dangling
the same changeset aborts. -/
theorem dangling_reference_policy :
    (∀ (st : ApplyState) (row : Row), actionOf row = "delete" →
      dlookup st.merged (idOf row) = none →
      step true st row = .ok { st with all_fields := unionFields st.all_fields row,
                                       warnings := st.warnings ++ [.danglingDelete (idOf row)] } ∧
      step false st row = .error (.danglingDelete (idOf row))) ∧
    (∀ (st : ApplyState) (row : Row), actionOf row = "update" →
      dlookup st.merged (idOf row) = none →
      step true st row = .ok { st with all_fields := unionFields st.all_fields row,
                                       warnings := st.warnings ++ [.danglingUpdate (idOf row)] } ∧
      step false st row = .error (.danglingUpdate (idOf row))) ∧
    (∀ (merged : Dict Row) (warns : List Warn) (rid : String) (splits : List Row),
      dlookup merged rid = none →
      applyGroup true (merged, warns) (rid, splits) = .ok (merged, warns ++ [.danglingSplit rid]) ∧
      applyGroup false (merged, warns) (rid, splits) = .error (.danglingSplit rid)) ∧
    (∀ (skip : Bool) (st st' : ApplyState) (row : Row) (rest : List Row),
      step skip st row = .ok st' →
      processOps skip st (row :: rest) = processOps skip st' rest) ∧
    apply_changeset scenarioA_base scenarioA_changeset true =
      .ok ([[("id", "1"), ("date", "2024-01-01"), ("description", "a"), ("amount", "1.00"),
             ("account", "x"), ("category", "")],
            [("id", "2"), ("date", "2024-01-02"), ("description", "b"), ("amount", "2.00"),
             ("account", "x"), ("category", "Groceries")],
            [("id", "3"), ("date", "2024-01-03"), ("description", "c"), ("amount", "3.00"),
             ("account", "x"), ("category", "")]],
           ["account", "amount", "category", "date", "description", "id", "type"],
           [.danglingDelete "5"]) ∧
    apply_changeset scenarioA_base scenarioA_changeset false =
      .error (.danglingDelete "5") := by
  refine ⟨?_, ?_, ?_, ?_, by decide, by decide⟩
  · intro st row hact habs
    constructor <;> simp [step, hact, habs]
  · intro st row hact habs
    constructor <;> simp [step, hact, habs]
  · intro merged warns rid splits habs
    constructor <;> simp [applyGroup, habs]
  · intro skip st st' row rest hstep
    simp only [processOps, List.foldlM_cons, hstep]
    rfl

/-- Closed witness for C4 at a concrete state and dangling id. -/
theorem dangling_reference_policy_witness :
    (step true ⟨[], [], [], []⟩ [("type", "delete"), ("id", "9")] =
       .ok { merged := [], all_fields := unionFields [] [("type", "delete"), ("id", "9")],
             split_groups := [],
             warnings := [] ++ [Warn.danglingDelete (idOf [("type", "delete"), ("id", "9")])] } ∧
     step false ⟨[], [], [], []⟩ [("type", "delete"), ("id", "9")] =
       .error (ApplyError.danglingDelete (idOf [("type", "delete"), ("id", "9")]))) ∧
    (step true ⟨[], [], [], []⟩ [("type", "update"), ("id", "9"), ("category", "z")] =
       .ok { merged := [],
             all_fields := unionFields [] [("type", "update"), ("id", "9"), ("category", "z")],
             split_groups := [],
             warnings := [] ++ [Warn.danglingUpdate (idOf [("type", "update"), ("id", "9"), ("category", "z")])] }) ∧
    applyGroup false ([], []) ("9", [[("amount", "1.00")]]) =
      .error (ApplyError.danglingSplit "9") :=
  ⟨dangling_reference_policy.1 ⟨[], [], [], []⟩ [("type", "delete"), ("id", "9")]
      (by decide) (by decide),
   (dangling_reference_policy.2.1 ⟨[], [], [], []⟩
      [("type", "update"), ("id", "9"), ("category", "z")] (by decide) (by decide)).1,
   (dangling_reference_policy.2.2.1 [] [] "9" [[("amount", "1.00")]] rfl).2⟩

/-! ### Engine lemmas -/

theorem ok_bind (a : α) (f : α → Except ε β) : (Except.ok a >>= f) = f a := rfl

theorem except_bind_pure (x : Except ε α) : (x >>= fun a => (pure a : Except ε α)) = x := by
  cases x <;> rfl

theorem step_split (skip : Bool) (st : ApplyState) (p : Row)
    (hact : actionOf p = "split") (hrid : idOf p ≠ "") :
    step skip st p = .ok { st with
      all_fields := unionFields st.all_fields p,
      split_groups := dset st.split_groups (idOf p)
        (dgetD st.split_groups (idOf p) [] ++ [nonemptyFields p]) } := by
  simp [step, hact, hrid]

theorem processOps_splits (skip : Bool) (rid : String) (parts : List Row) (st : ApplyState)
    (hact : ∀ p ∈ parts, actionOf p = "split" ∧ idOf p = rid) (hrid : rid ≠ "") :
    processOps skip st parts = .ok { st with
      all_fields := parts.foldl unionFields st.all_fields,
      split_groups := parts.foldl
        (fun g p => dset g rid (dgetD g rid [] ++ [nonemptyFields p])) st.split_groups } := by
  induction parts generalizing st with
  | nil => rfl
  | cons p rest ih =>
    obtain ⟨hp1, hp2⟩ := hact p (List.mem_cons_self p rest)
    have hps := step_split skip st p hp1 (by rw [hp2]; exact hrid)
    have hcons : processOps skip st (p :: rest) =
        processOps skip { st with
          all_fields := unionFields st.all_fields p,
          split_groups := dset st.split_groups (idOf p)
            (dgetD st.split_groups (idOf p) [] ++ [nonemptyFields p]) } rest := by
      simp only [processOps, List.foldlM_cons, hps]
      rfl
    rw [hcons, ih _ (fun q hq => hact q (List.mem_cons_of_mem p hq)), hp2]
    rfl

theorem foldl_buffer_single (rid : String) (parts : List Row) (acc : List Row) :
    parts.foldl (fun g p => dset g rid (dgetD g rid [] ++ [nonemptyFields p])) [(rid, acc)] =
      [(rid, acc ++ parts.map nonemptyFields)] := by
  induction parts generalizing acc with
  | nil => simp
  | cons p rest ih =>
    simp only [List.foldl_cons, List.map_cons]
    have h1 : dset [(rid, acc)] rid (dgetD [(rid, acc)] rid [] ++ [nonemptyFields p]) =
        [(rid, acc ++ [nonemptyFields p])] := by
      simp [dset, dgetD, dlookup]
    rw [h1, ih]
    simp

theorem foldl_buffer_from_empty (rid : String) (p : Row) (rest : List Row) :
    (p :: rest).foldl (fun g q => dset g rid (dgetD g rid [] ++ [nonemptyFields q]))
        ([] : Dict (List Row)) =
      [(rid, (p :: rest).map nonemptyFields)] := by
  simp only [List.foldl_cons, List.map_cons]
  have h0 : dset ([] : Dict (List Row)) rid (dgetD [] rid [] ++ [nonemptyFields p]) =
      [(rid, [nonemptyFields p])] := by simp [dset, dgetD, dlookup]
  rw [h0, foldl_buffer_single]
  simp

theorem applySplits_single (skip : Bool) (merged : Dict Row) (rid : String)
    (splits : List Row) (warns : List Warn) :
    applySplits skip merged [(rid, splits)] warns =
      applyGroup skip (merged, warns) (rid, splits) := by
  unfold applySplits
  rw [List.foldlM_cons]
  have : ∀ x : Except ApplyError (Dict Row × List Warn),
      (x >>= fun mw => List.foldlM (applyGroup skip) mw []) = x := by
    intro x; cases x <;> rfl
  rw [this]

theorem dlookup_foldl_dset_not_mem (pairs : List (String × α)) (m : Dict α) (k : String)
    (h : k ∉ pairs.map Prod.fst) :
    dlookup (pairs.foldl (fun acc pr => dset acc pr.1 pr.2) m) k = dlookup m k := by
  induction pairs generalizing m with
  | nil => rfl
  | cons q qs ih =>
    simp only [List.map_cons, List.mem_cons] at h
    push_neg at h
    simp only [List.foldl_cons]
    rw [ih _ h.2, dlookup_dset]
    have : ¬ q.1 = k := fun hh => h.1 hh.symm
    simp [this]

theorem dlookup_foldl_dset_mem (pairs : List (String × α)) (m : Dict α)
    (hnd : (pairs.map Prod.fst).Nodup) :
    ∀ pr ∈ pairs, dlookup (pairs.foldl (fun acc q => dset acc q.1 q.2) m) pr.1 = some pr.2 := by
  induction pairs generalizing m with
  | nil => simp
  | cons q qs ih =>
    simp only [List.map_cons, List.nodup_cons] at hnd
    intro pr hpr
    rcases List.mem_cons.mp hpr with h | h
    · subst h
      simp only [List.foldl_cons]
      rw [dlookup_foldl_dset_not_mem qs _ pr.1 hnd.1, dlookup_dset_self]
    · simp only [List.foldl_cons]
      exact ih _ hnd.2 pr h

theorem mem_dkeys_foldl_dset (pairs : List (String × α)) (m : Dict α) (x : String)
    (h : x ∈ dkeys (pairs.foldl (fun acc q => dset acc q.1 q.2) m)) :
    x ∈ dkeys m ∨ x ∈ pairs.map Prod.fst := by
  induction pairs generalizing m with
  | nil => exact Or.inl h
  | cons q qs ih =>
    simp only [List.foldl_cons] at h
    rcases ih _ h with h' | h'
    · rw [dkeys_dset] at h'
      by_cases hm : q.1 ∈ dkeys m
      · rw [if_pos hm] at h'; exact Or.inl h'
      · rw [if_neg hm] at h'
        rcases List.mem_append.mp h' with h'' | h''
        · exact Or.inl h''
        · right
          simp only [List.mem_singleton] at h''
          simp [h'']
    · right; simp [h']

theorem mem_dset (d : Dict α) (k : String) (v : α) (kv : String × α)
    (h : kv ∈ dset d k v) : kv ∈ d ∨ kv = (k, v) := by
  induction d with
  | nil =>
    right
    simpa [dset] using h
  | cons q rest ih =>
    obtain ⟨k0, v0⟩ := q
    by_cases h0 : k0 = k
    · subst h0
      simp only [dset, if_pos rfl] at h
      rcases List.mem_cons.mp h with h1 | h1
      · exact Or.inr h1
      · exact Or.inl (List.mem_cons_of_mem _ h1)
    · simp only [dset, if_neg h0] at h
      rcases List.mem_cons.mp h with h1 | h1
      · exact Or.inl (by simp [h1])
      · rcases ih h1 with h2 | h2
        · exact Or.inl (List.mem_cons_of_mem _ h2)
        · exact Or.inr h2

theorem mem_foldl_dset (pairs : List (String × α)) (m : Dict α) (kv : String × α)
    (h : kv ∈ pairs.foldl (fun acc q => dset acc q.1 q.2) m) :
    kv ∈ m ∨ kv ∈ pairs := by
  induction pairs generalizing m with
  | nil => exact Or.inl h
  | cons q qs ih =>
    simp only [List.foldl_cons] at h
    rcases ih _ h with h' | h'
    · rcases mem_dset _ _ _ _ h' with h'' | h''
      · exact Or.inl h''
      · right; simp [h'']
    · right; simp [h']

theorem mem_ddel (d : Dict α) (k : String) (kv : String × α) (h : kv ∈ ddel d k) :
    kv ∈ d := by
  induction d with
  | nil => simp [ddel] at h
  | cons q rest ih =>
    obtain ⟨k0, v0⟩ := q
    by_cases h0 : k0 = k
    · subst h0
      simp only [ddel, if_pos rfl] at h
      exact List.mem_cons_of_mem _ h
    · simp only [ddel, if_neg h0, List.mem_cons] at h
      rcases h with h | h
      · simp [h]
      · exact List.mem_cons_of_mem _ (ih h)

theorem initMerged_props (rows : List Row) (acc m : Dict Row)
    (hnd : (dkeys acc).Nodup)
    (hinv : ∀ kv ∈ acc, dlookup kv.2 "id" = some kv.1)
    (h : rows.foldlM initMergedStep acc = .ok m) :
    (dkeys m).Nodup ∧ ∀ kv ∈ m, dlookup kv.2 "id" = some kv.1 := by
  induction rows generalizing acc with
  | nil =>
    obtain rfl : acc = m := Except.ok.inj h
    exact ⟨hnd, hinv⟩
  | cons row rest ih =>
    simp only [List.foldlM_cons] at h
    cases hl : dlookup row "id" with
    | none =>
      rw [initMergedStep, hl] at h
      exact Except.noConfusion h
    | some i =>
      rw [initMergedStep, hl] at h
      refine ih (dset acc i row) (nodup_dkeys_dset acc i row hnd) ?_ h
      intro kv hkv
      rcases mem_dset acc i row kv hkv with h' | h'
      · exact hinv kv h'
      · rw [h']
        exact hl

theorem initMerged_nodup (rows : List Row) (m : Dict Row) (h : initMerged rows = .ok m) :
    (dkeys m).Nodup :=
  (initMerged_props rows [] m (by simp [dkeys]) (by simp) h).1

theorem initMerged_inv (rows : List Row) (m : Dict Row) (h : initMerged rows = .ok m) :
    ∀ kv ∈ m, dlookup kv.2 "id" = some kv.1 :=
  (initMerged_props rows [] m (by simp [dkeys]) (by simp) h).2

theorem values_id_eq_keys (m : Dict Row)
    (hinv : ∀ kv ∈ m, dlookup kv.2 "id" = some kv.1) :
    (m.map Prod.snd).map (fun r => dgetD r "id" "") = dkeys m := by
  rw [List.map_map]
  unfold dkeys
  apply List.map_congr_left
  intro kv hkv
  simp [Function.comp, dgetD, hinv kv hkv]

theorem apply_changeset_eq (first : Row) (brest changeset : List Row) (skip : Bool)
    (m₀ : Dict Row) (hinit : initMerged (first :: brest) = .ok m₀) :
    apply_changeset (first :: brest) changeset skip =
      (processOps skip ⟨m₀, unionFields [] first, [], []⟩ changeset) >>= fun st =>
        (applySplits skip st.merged st.split_groups st.warnings) >>= fun mw =>
          .ok (mw.1.map Prod.snd, sortStrings st.all_fields, mw.2) := by
  unfold apply_changeset
  rw [hinit]
  rfl

theorem error_bind (e : ε) (f : α → Except ε β) :
    ((Except.error e : Except ε α) >>= f) = .error e := rfl

/-- C1: when a split group targets an id present in the working set and
the parts' amounts differ from the current record's amount by more than
1e-6, the whole changeset application aborts with the split-mismatch
error — for both values of the skip-dangling flag. -/
theorem split_mismatch_always_fatal (B : List Row) (rid : String) (p : Row) (ps : List Row)
    (skip : Bool) (m₀ : Dict Row) (original : Row) (a t : Q)
    (hinit : initMerged B = .ok m₀)
    (hact : ∀ q ∈ p :: ps, actionOf q = "split" ∧ idOf q = rid)
    (hrid : rid ≠ "")
    (horig : dlookup m₀ rid = some original)
    (hamt : getAmount original = .ok a)
    (hsum : sumAmounts ((p :: ps).map nonemptyFields) = .ok t)
    (hmis : qlt qtol (qabs (qsub t a)) = true) :
    apply_changeset B (p :: ps) skip = .error (.splitMismatch t a) := by
  obtain ⟨first, brest, rfl⟩ : ∃ f r, B = f :: r := by
    cases B with
    | nil =>
      obtain rfl : ([] : Dict Row) = m₀ := Except.ok.inj hinit
      simp [dlookup] at horig
    | cons f r => exact ⟨f, r, rfl⟩
  rw [apply_changeset_eq first brest (p :: ps) skip m₀ hinit,
    processOps_splits skip rid (p :: ps) _ hact hrid, ok_bind]
  dsimp only
  rw [foldl_buffer_from_empty rid p ps, applySplits_single]
  simp only [applyGroup]
  rw [horig]
  dsimp only
  rw [hamt, ok_bind, hsum, ok_bind, if_pos hmis]
  rfl

/-- Closed witness for C1 at Scenario C (40.00 + 50.00 against 100.00),
in both dangling modes. -/
theorem split_mismatch_always_fatal_witness :
    (apply_changeset scenarioB_base scenarioC_parts true =
        .error (.splitMismatch ⟨900000, 10000⟩ ⟨10000, 100⟩) ∧
     apply_changeset scenarioB_base scenarioC_parts false =
        .error (.splitMismatch ⟨900000, 10000⟩ ⟨10000, 100⟩)) ∧
    qeqv ⟨900000, 10000⟩ ⟨90, 1⟩ = true ∧ qeqv ⟨10000, 100⟩ ⟨100, 1⟩ = true :=
  ⟨⟨split_mismatch_always_fatal scenarioB_base "4"
      [("type", "split"), ("id", "4"), ("amount", "40.00")]
      [[("type", "split"), ("id", "4"), ("amount", "50.00")]] true
      [("4", [("id", "4"), ("date", "2024-01-01"), ("description", "store"),
        ("amount", "100.00"), ("account", "checking")])]
      [("id", "4"), ("date", "2024-01-01"), ("description", "store"),
        ("amount", "100.00"), ("account", "checking")] ⟨10000, 100⟩ ⟨900000, 10000⟩
      (by decide) (by decide) (by decide) (by decide) (by decide) (by decide) (by decide),
    split_mismatch_always_fatal scenarioB_base "4"
      [("type", "split"), ("id", "4"), ("amount", "40.00")]
      [[("type", "split"), ("id", "4"), ("amount", "50.00")]] false
      [("4", [("id", "4"), ("date", "2024-01-01"), ("description", "store"),
        ("amount", "100.00"), ("account", "checking")])]
      [("id", "4"), ("date", "2024-01-01"), ("description", "store"),
        ("amount", "100.00"), ("account", "checking")] ⟨10000, 100⟩ ⟨900000, 10000⟩
      (by decide) (by decide) (by decide) (by decide) (by decide) (by decide) (by decide)⟩,
   by decide, by decide⟩

/-- C5: when a split group targets a present id and its parts' amounts sum
to the record's amount within 1e-6 (and the freshly generated part ids do
not collide with each other or with the original id), the application
succeeds, the original record disappears from the result, and for each
part the result contains the original record overlaid with that part's
non-empty fields under its fresh stable id. -/
theorem split_group_applied (B : List Row) (rid : String) (p : Row) (ps : List Row)
    (skip : Bool) (m₀ : Dict Row) (original : Row) (a t : Q)
    (hinit : initMerged B = .ok m₀)
    (hact : ∀ q ∈ p :: ps, actionOf q = "split" ∧ idOf q = rid)
    (hrid : rid ≠ "")
    (horig : dlookup m₀ rid = some original)
    (hamt : getAmount original = .ok a)
    (hsum : sumAmounts ((p :: ps).map nonemptyFields) = .ok t)
    (htol : qlt qtol (qabs (qsub t a)) = false)
    (hdistinct : ((p :: ps).map (fun q => splitNewId original (nonemptyFields q))).Nodup)
    (hnotrid : ∀ q ∈ p :: ps, splitNewId original (nonemptyFields q) ≠ rid) :
    ∃ rows fields warns,
      apply_changeset B (p :: ps) skip = .ok (rows, fields, warns) ∧
      (∀ q ∈ p :: ps, splitNewRow original (nonemptyFields q) ∈ rows) ∧
      (∀ r ∈ rows, dgetD r "id" "" ≠ rid) := by
  obtain ⟨first, brest, rfl⟩ : ∃ f r, B = f :: r := by
    cases B with
    | nil =>
      obtain rfl : ([] : Dict Row) = m₀ := Except.ok.inj hinit
      simp [dlookup] at horig
    | cons f r => exact ⟨f, r, rfl⟩
  rw [apply_changeset_eq first brest (p :: ps) skip m₀ hinit,
    processOps_splits skip rid (p :: ps) _ hact hrid, ok_bind]
  dsimp only
  rw [foldl_buffer_from_empty rid p ps, applySplits_single]
  simp only [applyGroup]
  rw [horig]
  dsimp only
  rw [hamt, ok_bind, hsum, ok_bind,
    if_neg (fun hh : qlt qtol (qabs (qsub t a)) = true => by rw [htol] at hh; cases hh),
    ok_bind]
  have hfold : ((p :: ps).map nonemptyFields).foldl
      (fun m s => dset m (splitNewId original s) (splitNewRow original s)) (ddel m₀ rid) =
      (((p :: ps).map nonemptyFields).map
          (fun s => (splitNewId original s, splitNewRow original s))).foldl
        (fun acc q => dset acc q.1 q.2) (ddel m₀ rid) := by
    simp only [List.foldl_map]
  rw [hfold]
  have hpairkeys :
      ((((p :: ps).map nonemptyFields).map
          (fun s => (splitNewId original s, splitNewRow original s))).map Prod.fst).Nodup := by
    rw [List.map_map, List.map_map]
    simpa [Function.comp] using hdistinct
  refine ⟨_, _, _, rfl, ?_, ?_⟩
  · intro q hq
    have hmem : (splitNewId original (nonemptyFields q),
        splitNewRow original (nonemptyFields q)) ∈
        ((p :: ps).map nonemptyFields).map
          (fun s => (splitNewId original s, splitNewRow original s)) :=
      List.mem_map_of_mem _ (List.mem_map_of_mem _ hq)
    have hl := dlookup_foldl_dset_mem _ (ddel m₀ rid) hpairkeys _ hmem
    exact List.mem_map_of_mem Prod.snd (dlookup_mem _ _ _ hl)
  · intro r hr
    obtain ⟨kv, hkv, rfl⟩ := List.mem_map.mp hr
    rcases mem_foldl_dset _ _ _ hkv with hk | hk
    · have hkm : kv ∈ m₀ := mem_ddel m₀ rid kv hk
      have hid := initMerged_inv _ _ hinit kv hkm
      have hkey : kv.1 ∈ dkeys (ddel m₀ rid) := List.mem_map_of_mem Prod.fst hk
      have hgone : dlookup (ddel m₀ rid) rid = none :=
        dlookup_ddel_self m₀ rid (initMerged_nodup _ _ hinit)
      have hne : kv.1 ≠ rid := by
        intro hh
        rw [hh, mem_dkeys_iff, hgone] at hkey
        simp at hkey
      simpa [dgetD, hid] using hne
    · obtain ⟨s, hs, rfl⟩ := List.mem_map.mp hk
      obtain ⟨q, hq, rfl⟩ := List.mem_map.mp hs
      have := hnotrid q hq
      simpa [splitNewRow, dgetD, dlookup_dset_self] using this

/-- Closed witness for C5 at Scenario B: splitting 100.00 into 40.00 and
60.00 removes id 4, inserts both overlays under fresh ids, and the two
part amounts sum to exactly 100. -/
theorem split_group_applied_witness :
    (∃ rows fields warns,
      apply_changeset scenarioB_base scenarioB_parts false = .ok (rows, fields, warns) ∧
      (∀ q ∈ scenarioB_parts,
        splitNewRow [("id", "4"), ("date", "2024-01-01"), ("description", "store"),
            ("amount", "100.00"), ("account", "checking")] (nonemptyFields q) ∈ rows) ∧
      (∀ r ∈ rows, dgetD r "id" "" ≠ "4")) ∧
    qeqv (qadd (qadd qzero ⟨4000, 100⟩) ⟨6000, 100⟩) ⟨100, 1⟩ = true :=
  ⟨split_group_applied scenarioB_base "4"
      [("type", "split"), ("id", "4"), ("amount", "40.00")]
      [[("type", "split"), ("id", "4"), ("amount", "60.00")]] false
      [("4", [("id", "4"), ("date", "2024-01-01"), ("description", "store"),
        ("amount", "100.00"), ("account", "checking")])]
      [("id", "4"), ("date", "2024-01-01"), ("description", "store"),
        ("amount", "100.00"), ("account", "checking")] ⟨10000, 100⟩ ⟨1000000, 10000⟩
      (by decide) (by decide) (by decide) (by decide) (by decide) (by decide) (by decide)
      (by decide) (by decide),
   by decide⟩

theorem dgetD_map_empty (fs : List String) (c : String) :
    dgetD (fs.map (fun k => (k, ""))) c "" = "" := by
  induction fs with
  | nil => rfl
  | cons f fs ih =>
    simp only [List.map_cons, dgetD, dlookup]
    by_cases h : f = c
    · simp [h]
    · simpa [h, dgetD] using ih

theorem dgetD_add_defaults (fs : List String) (row : Row) (c : String)
    (hnd : (dkeys row).Nodup) :
    dgetD (dupdate (fs.map (fun k => (k, ""))) (nonemptyFields row)) c "" =
      dgetD (nonemptyFields row) c "" := by
  rw [dgetD_dupdate (fs.map (fun k => (k, ""))) (nonemptyFields row) c ""
    (nodup_dkeys_filter row _ hnd)]
  cases hl : dlookup (nonemptyFields row) c with
  | some v => simp [hl]
  | none =>
    have hz := dgetD_map_empty fs c
    simp only [dgetD] at hz
    simp [hl, dgetD, hz]

theorem addNewId_eq (fs : List String) (row : Row) (hnd : (dkeys row).Nodup) :
    addNewId fs row = stable_id (nonemptyFields row) := by
  unfold addNewId
  exact stable_id_congr _ _ (dgetD_add_defaults fs row "date" hnd)
    (dgetD_add_defaults fs row "description" hnd)
    (dgetD_add_defaults fs row "amount" hnd)
    (dgetD_add_defaults fs row "account" hnd)

theorem step_add (skip : Bool) (st : ApplyState) (row : Row)
    (hact : actionOf row = "add") :
    step skip st row = .ok { st with
      merged := dset st.merged (addNewId (unionFields st.all_fields row) row)
        (addNewRow (unionFields st.all_fields row) row),
      all_fields := unionFields st.all_fields row } := by
  simp [step, hact]

theorem processOps_single (skip : Bool) (st : ApplyState) (r : Row) :
    processOps skip st [r] = step skip st r := by
  unfold processOps
  rw [List.foldlM_cons]
  exact except_bind_pure _

theorem dset_ne_nil (d : Dict α) (k : String) (v : α) : dset d k v ≠ [] := by
  cases d with
  | nil => simp [dset]
  | cons q rest =>
    obtain ⟨k0, v0⟩ := q
    by_cases h : k0 = k <;> simp [dset, h]

theorem initMerged_values_aux (m : Dict Row) (acc : Dict Row)
    (hnd : (dkeys acc ++ dkeys m).Nodup)
    (hinv : ∀ kv ∈ m, dlookup kv.2 "id" = some kv.1) :
    (m.map Prod.snd).foldlM initMergedStep acc = .ok (acc ++ m) := by
  induction m generalizing acc with
  | nil =>
    simp only [List.map_nil, List.foldlM_nil, List.append_nil]
    rfl
  | cons kv m' ih =>
    obtain ⟨k, v⟩ := kv
    have hv : dlookup v "id" = some k := hinv (k, v) (List.mem_cons_self _ _)
    have hknotin : k ∉ dkeys acc := by
      rw [List.nodup_append] at hnd
      intro hmem
      exact hnd.2.2 hmem (by simp [dkeys])
    have hk : dlookup acc k = none := dlookup_eq_none_of_not_mem _ _ hknotin
    simp only [List.map_cons, List.foldlM_cons]
    rw [initMergedStep, hv]
    have hstep : (Except.ok (dset acc k v) >>= fun acc' =>
        (m'.map Prod.snd).foldlM initMergedStep acc') =
        (m'.map Prod.snd).foldlM initMergedStep (dset acc k v) := rfl
    rw [hstep, dset_eq_append acc k v hk, ih]
    · simp
    · simp only [dkeys, List.map_append, List.map_cons, List.map_nil] at hnd ⊢
      rw [List.append_assoc]
      simpa using hnd
    · exact fun kv hkv => hinv kv (List.mem_cons_of_mem _ hkv)

theorem initMerged_values (m : Dict Row)
    (hnd : (dkeys m).Nodup)
    (hinv : ∀ kv ∈ m, dlookup kv.2 "id" = some kv.1) :
    initMerged (m.map Prod.snd) = .ok m := by
  unfold initMerged
  rw [initMerged_values_aux m [] (by simpa [dkeys] using hnd) hinv]
  simp

/-- C9: re-applying a changeset consisting of an `add` to the result of
its own first application generates the same id again, so the re-applied
add overwrites the record it created rather than adding a second one:
the id sequence of the result is unchanged, and exactly one record
carries the generated id. -/
theorem add_reapplication_idempotent (B : List Row) (addRow : Row) (skip : Bool)
    (rows1 : List Row) (f1 : List String) (w1 : List Warn)
    (hact : actionOf addRow = "add") (hnd : (dkeys addRow).Nodup)
    (h1 : apply_changeset B [addRow] skip = .ok (rows1, f1, w1)) :
    ∃ rows2 f2 w2,
      apply_changeset rows1 [addRow] skip = .ok (rows2, f2, w2) ∧
      rows2.map (fun r => dgetD r "id" "") = rows1.map (fun r => dgetD r "id" "") ∧
      stable_id (nonemptyFields addRow) ∈ rows1.map (fun r => dgetD r "id" "") ∧
      (rows1.map (fun r => dgetD r "id" "")).count (stable_id (nonemptyFields addRow)) = 1 ∧
      rows2.length = rows1.length := by
  obtain ⟨first, brest, rfl⟩ : ∃ f r, B = f :: r := by
    cases B with
    | nil => exact absurd h1 (fun hh => Except.noConfusion hh)
    | cons f r => exact ⟨f, r, rfl⟩
  cases hB : initMerged (first :: brest) with
  | error e =>
    exfalso
    unfold apply_changeset at h1
    rw [hB] at h1
    exact Except.noConfusion h1
  | ok m₀ =>
  have hrun1 : apply_changeset (first :: brest) [addRow] skip =
      .ok ((dset m₀ (addNewId (unionFields (unionFields [] first) addRow) addRow)
              (addNewRow (unionFields (unionFields [] first) addRow) addRow)).map Prod.snd,
           sortStrings (unionFields (unionFields [] first) addRow), []) := by
    rw [apply_changeset_eq first brest [addRow] skip m₀ hB, processOps_single,
      step_add skip _ addRow hact, ok_bind]
    rfl
  rw [hrun1] at h1
  have h1' := Except.ok.inj h1
  rw [Prod.mk.injEq, Prod.mk.injEq] at h1'
  obtain ⟨hrows1, _, _⟩ := h1'
  subst hrows1
  have hnd₀ := initMerged_nodup _ _ hB
  have hinv₀ := initMerged_inv _ _ hB
  set gA := addNewId (unionFields (unionFields [] first) addRow) addRow with hgA
  set nrA := addNewRow (unionFields (unionFields [] first) addRow) addRow with hnrA
  set m₁ := dset m₀ gA nrA with hm₁
  have hgid1 : gA = stable_id (nonemptyFields addRow) := by
    rw [hgA]
    exact addNewId_eq _ addRow hnd
  have hIdnr : dlookup nrA "id" = some gA := by
    rw [hnrA, hgA]
    unfold addNewRow
    exact dlookup_dset_self _ _ _
  have hnd₁ : (dkeys m₁).Nodup := by
    rw [hm₁]
    exact nodup_dkeys_dset m₀ gA nrA hnd₀
  have hinv₁ : ∀ kv ∈ m₁, dlookup kv.2 "id" = some kv.1 := by
    rw [hm₁]
    intro kv hkv
    rcases mem_dset m₀ gA nrA kv hkv with h' | h'
    · exact hinv₀ kv h'
    · rw [h']
      exact hIdnr
  have hlook1 : dlookup m₁ gA = some nrA := by
    rw [hm₁]
    exact dlookup_dset_self _ _ _
  have hval : initMerged (m₁.map Prod.snd) = .ok m₁ := initMerged_values m₁ hnd₁ hinv₁
  obtain ⟨r1, rest1, hr1⟩ : ∃ a l, m₁.map Prod.snd = a :: l := by
    cases hcm : m₁.map Prod.snd with
    | nil =>
      exfalso
      have hmm : m₁ = [] := List.map_eq_nil_iff.mp hcm
      rw [hm₁] at hmm
      exact dset_ne_nil _ _ _ hmm
    | cons a l => exact ⟨a, l, rfl⟩
  have hgid2 : addNewId (unionFields (unionFields [] r1) addRow) addRow =
      stable_id (nonemptyFields addRow) := addNewId_eq _ addRow hnd
  have hsame : addNewId (unionFields (unionFields [] r1) addRow) addRow = gA :=
    hgid2.trans hgid1.symm
  have hrun2 : apply_changeset (m₁.map Prod.snd) [addRow] skip =
      .ok ((dset m₁ (addNewId (unionFields (unionFields [] r1) addRow) addRow)
              (addNewRow (unionFields (unionFields [] r1) addRow) addRow)).map Prod.snd,
           sortStrings (unionFields (unionFields [] r1) addRow), []) := by
    rw [hr1, apply_changeset_eq r1 rest1 [addRow] skip m₁ (hr1 ▸ hval), processOps_single,
      step_add skip _ addRow hact, ok_bind]
    rfl
  have hIdnr2 : dlookup (addNewRow (unionFields (unionFields [] r1) addRow) addRow) "id" =
      some (addNewId (unionFields (unionFields [] r1) addRow) addRow) := by
    unfold addNewRow
    exact dlookup_dset_self _ _ _
  have hmem1 : addNewId (unionFields (unionFields [] r1) addRow) addRow ∈ dkeys m₁ := by
    rw [hsame, mem_dkeys_iff, hlook1]
    rfl
  have hkeys : dkeys (dset m₁ (addNewId (unionFields (unionFields [] r1) addRow) addRow)
      (addNewRow (unionFields (unionFields [] r1) addRow) addRow)) = dkeys m₁ := by
    rw [dkeys_dset, if_pos hmem1]
  have hinv₂ : ∀ kv ∈ dset m₁ (addNewId (unionFields (unionFields [] r1) addRow) addRow)
      (addNewRow (unionFields (unionFields [] r1) addRow) addRow),
      dlookup kv.2 "id" = some kv.1 := by
    intro kv hkv
    rcases mem_dset _ _ _ kv hkv with h' | h'
    · exact hinv₁ kv h'
    · rw [h']
      exact hIdnr2
  have hids1 : (m₁.map Prod.snd).map (fun r => dgetD r "id" "") = dkeys m₁ :=
    values_id_eq_keys m₁ hinv₁
  refine ⟨_, _, _, hrun2, ?_, ?_, ?_, ?_⟩
  · rw [values_id_eq_keys _ hinv₂, hkeys, hids1]
  · rw [hids1, ← hgid1, mem_dkeys_iff, hlook1]
    rfl
  · rw [hids1, ← hgid1]
    exact List.count_eq_one_of_mem hnd₁ (by rw [mem_dkeys_iff, hlook1]; rfl)
  · have hlen := congrArg List.length hkeys
    simp only [dkeys, List.length_map] at hlen
    simp [hlen]

/-- Closed witness for C9: re-applying a one-add changeset to its own
output keeps the id sequence and the record count, with the generated id
appearing exactly once. -/
theorem add_reapplication_idempotent_witness :
    ∃ rows2 f2 w2,
      apply_changeset
        [[("id", "1"), ("date", "2024-01-01"), ("description", "x"), ("amount", "1.00"),
          ("account", "a")],
         [("id", "5f29271975"), ("date", "2024-02-02"), ("description", "new"),
          ("amount", "5.00"), ("account", "a"), ("type", "")]]
        [[("type", "add"), ("date", "2024-02-02"), ("description", "new"),
          ("amount", "5.00"), ("account", "a")]] false = .ok (rows2, f2, w2) ∧
      rows2.map (fun r => dgetD r "id" "") =
        ([[("id", "1"), ("date", "2024-01-01"), ("description", "x"), ("amount", "1.00"),
           ("account", "a")],
          [("id", "5f29271975"), ("date", "2024-02-02"), ("description", "new"),
           ("amount", "5.00"), ("account", "a"), ("type", "")]].map
            (fun r => dgetD r "id" "")) ∧
      stable_id (nonemptyFields [("type", "add"), ("date", "2024-02-02"),
          ("description", "new"), ("amount", "5.00"), ("account", "a")]) ∈
        ([[("id", "1"), ("date", "2024-01-01"), ("description", "x"), ("amount", "1.00"),
           ("account", "a")],
          [("id", "5f29271975"), ("date", "2024-02-02"), ("description", "new"),
           ("amount", "5.00"), ("account", "a"), ("type", "")]].map
            (fun r => dgetD r "id" "")) ∧
      (([[("id", "1"), ("date", "2024-01-01"), ("description", "x"), ("amount", "1.00"),
           ("account", "a")],
          [("id", "5f29271975"), ("date", "2024-02-02"), ("description", "new"),
           ("amount", "5.00"), ("account", "a"), ("type", "")]].map
            (fun r => dgetD r "id" "")).count
          (stable_id (nonemptyFields [("type", "add"), ("date", "2024-02-02"),
            ("description", "new"), ("amount", "5.00"), ("account", "a")]))) = 1 ∧
      rows2.length =
        ([[("id", "1"), ("date", "2024-01-01"), ("description", "x"), ("amount", "1.00"),
           ("account", "a")],
          [("id", "5f29271975"), ("date", "2024-02-02"), ("description", "new"),
           ("amount", "5.00"), ("account", "a"), ("type", "")]] : List Row).length :=
  add_reapplication_idempotent
    [[("id", "1"), ("date", "2024-01-01"), ("description", "x"), ("amount", "1.00"),
      ("account", "a")]]
    [("type", "add"), ("date", "2024-02-02"), ("description", "new"),
      ("amount", "5.00"), ("account", "a")] false
    [[("id", "1"), ("date", "2024-01-01"), ("description", "x"), ("amount", "1.00"),
      ("account", "a")],
     [("id", "5f29271975"), ("date", "2024-02-02"), ("description", "new"),
      ("amount", "5.00"), ("account", "a"), ("type", "")]]
    ["account", "amount", "date", "description", "id", "type"] []
    (by decide) (by decide) (by decide)

theorem dlookup_projRow (fieldnames : List String) (r : Row) (k : String) :
    dlookup (projRow fieldnames r) k =
      if k ∈ fieldnames then some (dgetD r k "") else none := by
  induction fieldnames with
  | nil => simp [projRow, dlookup]
  | cons f fs ih =>
    simp only [projRow, List.map_cons, dlookup] at ih ⊢
    by_cases h : f = k
    · subst h
      simp
    · rw [if_neg h, ih]
      have hnk : ¬ k = f := fun hh => h hh.symm
      by_cases hm : k ∈ fs
      · simp [hm, hnk]
      · simp [hm, hnk]

theorem projRow_eq_self (r : Row) (hnd : (dkeys r).Nodup) :
    projRow (dkeys r) r = r := by
  induction r with
  | nil => rfl
  | cons kv rest ih =>
    obtain ⟨k, v⟩ := kv
    simp only [dkeys, List.map_cons, List.nodup_cons] at hnd
    simp only [projRow, dkeys, List.map_cons]
    congr 1
    · simp [dgetD, dlookup]
    · have hcongr : ∀ f ∈ List.map Prod.fst rest,
          (f, dgetD ((k, v) :: rest) f "") = (f, dgetD rest f "") := by
        intro f hf
        have : ¬ k = f := fun hh => hnd.1 (hh ▸ hf)
        simp [dgetD, dlookup, this]
      rw [List.map_congr_left hcongr]
      exact ih hnd.2

theorem writeRow_ok (fieldnames : List String) (r : Row)
    (h : ∀ k ∈ dkeys r, k ∈ fieldnames) :
    writeRow fieldnames r = .ok (projRow fieldnames r) := by
  have hall : r.all (fun kv => fieldnames.contains kv.1) = true := by
    rw [List.all_eq_true]
    rintro ⟨a, b⟩ hab
    simpa using h a (List.mem_map_of_mem Prod.fst hab)
  unfold writeRow projRow
  rw [if_pos hall]

theorem mem_insertSet (l : List String) (y x : String) :
    x ∈ insertSet l y ↔ x ∈ l ∨ x = y := by
  unfold insertSet
  by_cases h : y ∈ l
  · rw [if_pos h]
    constructor
    · exact Or.inl
    · rintro (hx | rfl)
      · exact hx
      · exact h
  · rw [if_neg h]
    simp

theorem mem_foldl_collect (updates : Dict Row) (idCol : String) (rows : List Row)
    (acc : List String) (x : String) :
    x ∈ rows.foldl (collectMatched updates idCol) acc ↔
      x ∈ acc ∨ ((dlookup updates x).isSome ∧
        x ∈ rows.map (fun r => dgetD r idCol "")) := by
  induction rows generalizing acc with
  | nil => simp
  | cons row rest ih =>
    simp only [List.foldl_cons, List.map_cons, List.mem_cons]
    rw [ih]
    unfold collectMatched
    by_cases h : (dlookup updates (dgetD row idCol "")).isSome
    · rw [if_pos h]
      constructor
      · rintro (hx | ⟨hs, hx⟩)
        · rcases (mem_insertSet acc (dgetD row idCol "") x).mp hx with hx' | rfl
          · exact Or.inl hx'
          · exact Or.inr ⟨h, Or.inl rfl⟩
        · exact Or.inr ⟨hs, Or.inr hx⟩
      · rintro (hx | ⟨hs, (rfl | hx)⟩)
        · exact Or.inl ((mem_insertSet acc _ x).mpr (Or.inl hx))
        · exact Or.inl ((mem_insertSet acc _ _).mpr (Or.inr rfl))
        · exact Or.inr ⟨hs, hx⟩
    · rw [if_neg h]
      constructor
      · rintro (hx | ⟨hs, hx⟩)
        · exact Or.inl hx
        · exact Or.inr ⟨hs, Or.inr hx⟩
      · rintro (hx | ⟨hs, (rfl | hx)⟩)
        · exact Or.inl hx
        · exact absurd hs h
        · exact Or.inr ⟨hs, hx⟩

theorem batch_update_go (idCol : String) (fieldnames : List String) (updates : Dict Row)
    (rows : List Row) (acc1 : List Row) (acc2 : List String)
    (hid : idCol ∈ fieldnames)
    (hrows : ∀ r ∈ rows, dkeys r = fieldnames)
    (hupd : ∀ kv ∈ updates, ∀ k ∈ dkeys kv.2, k ∈ fieldnames) :
    rows.foldlM (batchUpdateStep idCol fieldnames updates) (acc1, acc2) =
      .ok (acc1 ++ rows.map (fun row => projRow fieldnames (mergedRowFor updates idCol row)),
           rows.foldl (collectMatched updates idCol) acc2) := by
  induction rows generalizing acc1 acc2 with
  | nil => simp [List.foldlM_nil]; rfl
  | cons row rest ih =>
    have hkeys : dkeys row = fieldnames := hrows row (List.mem_cons_self _ _)
    have hidmem : idCol ∈ dkeys row := hkeys ▸ hid
    rw [mem_dkeys_iff] at hidmem
    obtain ⟨ridv, hrid⟩ := Option.isSome_iff_exists.mp hidmem
    have hgetd : dgetD row idCol "" = ridv := by simp [dgetD, hrid]
    simp only [List.map_cons, List.foldlM_cons, List.foldl_cons]
    cases hu : dlookup updates ridv with
    | some upd =>
      have hw : writeRow fieldnames (dupdate row upd) =
          .ok (projRow fieldnames (dupdate row upd)) := by
        apply writeRow_ok
        intro k hk
        rcases mem_dkeys_dupdate row upd k hk with h' | h'
        · exact hkeys ▸ h'
        · exact hupd (ridv, upd) (dlookup_mem updates ridv upd hu) k h'
      have hstep : batchUpdateStep idCol fieldnames updates (acc1, acc2) row =
          .ok (acc1 ++ [projRow fieldnames (dupdate row upd)], insertSet acc2 ridv) := by
        unfold batchUpdateStep
        rw [hrid]
        dsimp only [ok_bind]
        rw [hu]
        dsimp only
        rw [hw, ok_bind]
      rw [hstep, ok_bind, ih _ _ (fun r hr => hrows r (List.mem_cons_of_mem _ hr))]
      have hmrf : mergedRowFor updates idCol row = dupdate row upd := by
        unfold mergedRowFor
        rw [hgetd, hu]
      have hcm : collectMatched updates idCol acc2 row = insertSet acc2 ridv := by
        unfold collectMatched
        rw [hgetd, hu]
        rfl
      rw [hmrf, hcm]
      simp
    | none =>
      have hw : writeRow fieldnames row = .ok (projRow fieldnames row) := by
        apply writeRow_ok
        intro k hk
        exact hkeys ▸ hk
      have hstep : batchUpdateStep idCol fieldnames updates (acc1, acc2) row =
          .ok (acc1 ++ [projRow fieldnames row], acc2) := by
        unfold batchUpdateStep
        rw [hrid]
        dsimp only [ok_bind]
        rw [hu]
        dsimp only
        rw [hw, ok_bind]
      rw [hstep, ok_bind, ih _ _ (fun r hr => hrows r (List.mem_cons_of_mem _ hr))]
      have hmrf : mergedRowFor updates idCol row = row := by
        unfold mergedRowFor
        rw [hgetd, hu]
      have hcm : collectMatched updates idCol acc2 row = acc2 := by
        unfold collectMatched
        rw [hgetd, hu]
        rfl
      rw [hmrf, hcm]
      simp

/-- C7: `batch_update` rewrites the file so that a row whose id is not in
the update mapping is written back unchanged, a row whose id is in the
mapping has exactly the mapping's columns replaced and every other column
unchanged, and the returned set is exactly the mapping ids that matched
some row of the file. -/
theorem batch_update_frame (idCol : String) (fieldnames : List String) (rows : List Row)
    (updates : Dict Row)
    (hndf : fieldnames.Nodup)
    (hid : idCol ∈ fieldnames)
    (hrows : ∀ r ∈ rows, dkeys r = fieldnames)
    (hupd : ∀ kv ∈ updates, (∀ k ∈ dkeys kv.2, k ∈ fieldnames) ∧ (dkeys kv.2).Nodup) :
    ∃ rows' matched,
      batch_update idCol fieldnames rows updates = .ok (rows', matched) ∧
      rows'.length = rows.length ∧
      (∀ i, i < rows.length →
        (dlookup updates (dgetD (rows.getD i []) idCol "") = none →
          rows'.getD i [] = rows.getD i []) ∧
        (∀ upd, dlookup updates (dgetD (rows.getD i []) idCol "") = some upd →
          ∀ k, dlookup (rows'.getD i []) k =
            if (dlookup upd k).isSome then dlookup upd k
            else dlookup (rows.getD i []) k)) ∧
      (∀ rid, rid ∈ matched ↔
        (dlookup updates rid).isSome ∧ rid ∈ rows.map (fun r => dgetD r idCol "")) := by
  have hgo := batch_update_go idCol fieldnames updates rows [] [] hid hrows
    (fun kv hkv => (hupd kv hkv).1)
  rw [List.nil_append] at hgo
  refine ⟨_, _, hgo, by simp, ?_, ?_⟩
  · intro i hi
    have hi' : i < (rows.map
        (fun row => projRow fieldnames (mergedRowFor updates idCol row))).length := by
      simpa using hi
    have hmem : rows.getD i [] ∈ rows := by
      rw [List.getD_eq_getElem rows [] hi]
      exact List.getElem_mem hi
    have hmap : (rows.map
        (fun row => projRow fieldnames (mergedRowFor updates idCol row))).getD i [] =
        projRow fieldnames (mergedRowFor updates idCol (rows.getD i [])) := by
      rw [List.getD_eq_getElem _ [] hi', List.getElem_map,
        List.getD_eq_getElem rows [] hi]
    constructor
    · intro hnone
      rw [hmap]
      have hmrf : mergedRowFor updates idCol (rows.getD i []) = rows.getD i [] := by
        unfold mergedRowFor
        rw [hnone]
      rw [hmrf, ← hrows (rows.getD i []) hmem]
      exact projRow_eq_self (rows.getD i []) (hrows (rows.getD i []) hmem ▸ hndf)
    · intro upd hupd' k
      rw [hmap]
      have hmrf : mergedRowFor updates idCol (rows.getD i []) =
          dupdate (rows.getD i []) upd := by
        unfold mergedRowFor
        rw [hupd']
      rw [hmrf, dlookup_projRow]
      have hndu : (dkeys upd).Nodup :=
        (hupd (dgetD (rows.getD i []) idCol "", upd)
          (dlookup_mem updates _ upd hupd')).2
      have hsubu : ∀ k' ∈ dkeys upd, k' ∈ fieldnames :=
        (hupd (dgetD (rows.getD i []) idCol "", upd)
          (dlookup_mem updates _ upd hupd')).1
      cases hk : dlookup upd k with
      | some v =>
        have hkf : k ∈ fieldnames :=
          hsubu k (by rw [mem_dkeys_iff, hk]; rfl)
        rw [if_pos hkf]
        have := dgetD_dupdate (rows.getD i []) upd k "" hndu
        rw [hk] at this
        simp only [Option.isSome_some, if_pos] at this
        rw [this]
        simp [dgetD, hk]
      | none =>
        have := dgetD_dupdate (rows.getD i []) upd k "" hndu
        rw [hk] at this
        simp only [Option.isSome_none, Bool.false_eq_true, if_false] at this
        by_cases hkf : k ∈ fieldnames
        · rw [if_pos hkf, this]
          have hkrow : k ∈ dkeys (rows.getD i []) := by
            rw [hrows (rows.getD i []) hmem]
            exact hkf
          rw [mem_dkeys_iff] at hkrow
          obtain ⟨v, hv⟩ := Option.isSome_iff_exists.mp hkrow
          simp only [dgetD]
          rw [hv]
          rfl
        · rw [if_neg hkf]
          have hkrow : k ∉ dkeys (rows.getD i []) := by
            rw [hrows (rows.getD i []) hmem]
            exact hkf
          rw [dlookup_eq_none_of_not_mem _ _ hkrow]
          simp
  · intro rid
    rw [mem_foldl_collect]
    simp

/-- Closed witness for C7 at a two-row store with one matching and one
non-matching update id. -/
theorem batch_update_frame_witness :
    ∃ rows' matched,
      batch_update "id" ["id", "category"]
        [[("id", "1"), ("category", "a")], [("id", "2"), ("category", "b")]]
        [("2", [("category", "X")]), ("5", [("category", "Y")])] = .ok (rows', matched) ∧
      rows'.length =
        ([[("id", "1"), ("category", "a")], [("id", "2"), ("category", "b")]] : List Row).length ∧
      (∀ i, i < ([[("id", "1"), ("category", "a")],
          [("id", "2"), ("category", "b")]] : List Row).length →
        (dlookup [("2", [("category", "X")]), ("5", [("category", "Y")])]
            (dgetD (([[("id", "1"), ("category", "a")],
              [("id", "2"), ("category", "b")]] : List Row).getD i []) "id" "") = none →
          rows'.getD i [] = ([[("id", "1"), ("category", "a")],
            [("id", "2"), ("category", "b")]] : List Row).getD i []) ∧
        (∀ upd, dlookup [("2", [("category", "X")]), ("5", [("category", "Y")])]
            (dgetD (([[("id", "1"), ("category", "a")],
              [("id", "2"), ("category", "b")]] : List Row).getD i []) "id" "") = some upd →
          ∀ k, dlookup (rows'.getD i []) k =
            if (dlookup upd k).isSome then dlookup upd k
            else dlookup (([[("id", "1"), ("category", "a")],
              [("id", "2"), ("category", "b")]] : List Row).getD i []) k)) ∧
      (∀ rid, rid ∈ matched ↔
        (dlookup [("2", [("category", "X")]), ("5", [("category", "Y")])] rid).isSome ∧
        rid ∈ ([[("id", "1"), ("category", "a")],
          [("id", "2"), ("category", "b")]] : List Row).map (fun r => dgetD r "id" "")) :=
  batch_update_frame "id" ["id", "category"]
    [[("id", "1"), ("category", "a")], [("id", "2"), ("category", "b")]]
    [("2", [("category", "X")]), ("5", [("category", "Y")])]
    (by decide) (by decide) (by decide) (by decide)

/-- RFC 3174 test vectors, validating the SHA-1 embedding (including the
multi-block padding path) against the standard. -/
theorem sha1Hex_test_vectors :
    sha1Hex "abc" = "a9993e364706816aba3e25717850c26c9cd0d89d" ∧
    sha1Hex "" = "da39a3ee5e6b4b0d3255bfef95601890afd80709" ∧
    sha1Hex "abcdbcdecdefdefgefghfghighijhijkijkljklmklmnlmnomnopnopq" =
      "84983e441c3bd26ebaae4aa1f95129e5e54670f1" :=
  ⟨by decide, by decide, by decide⟩

end PyBudget
